import Mathlib

/-!
# osgEarth: label text resolution and terrain cull batching

A shallow embedding of two translation units of osgEarth,

* `src/osgEarthFeatures/BuildTextOperator.cpp` (`parseAttributes`,
  `BuildTextOperator::operator()`), and
* `src/osgEarthDrivers/engine_rex/TerrainCuller.cpp`
  (`TerrainCuller::addDrawCommand`, `TerrainCuller::apply`),

followed by theorems about them.

Conventions of the embedding:

* a `std::string` is a list of characters (`Str`); `std::string::npos` is `none`;
* a pointer that the source tests for null, or that a lookup may return as null,
  is an `Option`; dereferencing a null pointer makes the enclosing function
  return `none`;
* a `float` or `double` value is the rational it denotes; an arithmetic
  operation on such values is the exact operation followed by `roundFloat`,
  rounding to nearest with ties to even at 24 (`float`) or 53 (`double`) bits,
  each operation in the type C++ gives it (no excess precision);
* the `while(true)` loop of `parseAttributes` is driven by a fuel counter, and
  the theorems show that the fuel supplied is always enough.
-/

namespace OsgEarth

/-! ## Strings -/

/-- A `std::string`, as its sequence of characters. -/
abbrev Str := List Char

/-- The call `content.find_first_of(ch, pos)`: the least index `d ≥ pos` with
`content[d] = ch`, or `none` (for `std::string::npos`) when there is none. -/
def findFirstOf (content : Str) (ch : Char) (pos : Nat) : Option Nat :=
  let rest := content.drop pos
  let i := rest.indexOf ch
  if i < rest.length then some (pos + i) else none

/-- The call `content.substr(pos)`. -/
def substrFrom (content : Str) (pos : Nat) : Str := content.drop pos

/-- The call `content.substr(pos, n)`. -/
def substr (content : Str) (pos n : Nat) : Str := (content.drop pos).take n

/-! ## Floating point -/

/-- The integer nearest to `n / d`, the even one of the two when `n / d` lies
half way between them. -/
def roundHalfEven (n d : Nat) : Nat :=
  let q := n / d
  let r := n % d
  if 2 * r < d then q else if d < 2 * r then q + 1 else if q % 2 = 0 then q else q + 1

/-- The number of times `n` can be halved before it drops below `2`, counted with
at most `fuel` halvings. -/
def bitLog : Nat → Nat → Nat
  | 0, _ => 0
  | fuel + 1, n => if n < 2 then 0 else bitLog fuel (n / 2) + 1

/-- The exponent `⌊log₂ n⌋` of a positive integer (`n` halvings are more than
enough). -/
def log2Nat (n : Nat) : Nat := bitLog n n

/-- The exponent `⌊log₂ (n / d)⌋` of a positive quotient: the difference of the
exponents of `n` and `d`, or one less. -/
def floorLog2 (n d : Nat) : Int :=
  let t : Int := (log2Nat n : Int) - (log2Nat d : Int)
  if 0 ≤ t then (if d * 2 ^ t.toNat ≤ n then t else t - 1)
  else (if d ≤ n * 2 ^ (-t).toNat then t else t - 1)

/-- The value of a binary floating-point format with `p` bits of precision that
is nearest to `x`, ties to even (the default rounding of IEEE 754).  The range of
the exponent is not bounded: overflow and subnormal numbers are not part of the
embedding. -/
def roundFloat (p : Nat) (x : ℚ) : ℚ :=
  if x = 0 then 0
  else
    let n := x.num.natAbs
    let d := x.den
    let k : Int := (p : Int) - 1 - floorLog2 n d
    let m : Nat :=
      if 0 ≤ k then roundHalfEven (n * 2 ^ k.toNat) d
      else roundHalfEven n (d * 2 ^ (-k).toNat)
    let mag : ℚ := (m : ℚ) * (2 : ℚ) ^ (-k)
    if x < 0 then -mag else mag

/-- Rounding to `float` (IEEE 754 binary32, 24 bits of precision). -/
def toFloat (x : ℚ) : ℚ := roundFloat 24 x

/-- Rounding to `double` (IEEE 754 binary64, 53 bits of precision). -/
def toDouble (x : ℚ) : ℚ := roundFloat 53 x

/-! ## Features -/

/-- The part of a feature's geometry that label placement reads.  Its
coordinates are floating point in the source, rationals here. -/
structure Geometry where
  /-- The parts a `GeometryIterator` visits, each as `(isLineString, vertices)`. -/
  parts : List (Bool × List (ℚ × ℚ × ℚ))
deriving DecidableEq

/-- A `Feature`, as far as `BuildTextOperator` reads it. -/
structure Feature where
  /-- The method `getAttr(name)` (declared outside this translation unit). -/
  getAttr : Str → Str
  /-- The result of `getGeometry()`, null when the feature has no geometry. -/
  geometry : Option Geometry
  /-- The value of `text()` when the feature is a `TextAnnotation`
  (when the `dynamic_cast` succeeds), `none` otherwise. -/
  annotationText : Option Str

/-! ## `parseAttributes` -/

/-- The `while(true)` loop of `parseAttributes`, with `o = delim[0]` and
`c = delim[1]`.  `pos` and `out` are the loop's variables; the first argument
is the fuel, and `none` is returned only when it runs out. -/
def parseLoop (feature : Feature) (content : Str) (o c : Char) :
    Nat → Nat → Str → Option Str
  | 0, _, _ => none
  | fuel + 1, pos, out =>
    -- Search for an attribute delimiter
    match findFirstOf content o pos with
    | none =>
      -- No more delimiters? Add remaining text and we're done
      some (out ++ substrFrom content pos)
    | some d =>
      -- Add non-attribute text
      let out1 := out ++ substr content pos (d - pos)
      let pos1 := d + 1
      -- Extract attribute name
      match findFirstOf content c pos1 with
      | none =>
        -- No more delimiters? Add remaining text and we're done
        some (out1 ++ substrFrom content pos1)
      | some d1 =>
        -- Add attribute and continue
        parseLoop feature content o c fuel (d1 + 1)
          (out1 ++ feature.getAttr (substr content pos1 (d1 - pos1)))

/-- The function `parseAttributes(feature, content, delim)`.  Every pass of the
loop moves `pos` forward, so `content.length + 1` passes are enough. -/
def parseAttributes (feature : Feature) (content delim : Str) : Option Str :=
  match delim with
  | o :: c :: _ => parseLoop feature content o c (content.length + 1) 0 []
  | _ => some content

/-- The content `t0 o a1 c t1 ... o an c tn` of an attribute template, given
its leading text `t0` and the pairs `(ai, ti)`. -/
def templateText (o c : Char) : Str → List (Str × Str) → Str
  | t0, [] => t0
  | t0, (a, t) :: segs => t0 ++ o :: (a ++ c :: templateText o c t segs)

/-- The text `t0 ++ getAttr a1 ++ t1 ++ ... ++ getAttr an ++ tn` that the
template stands for on a feature. -/
def substitutedText (feature : Feature) : Str → List (Str × Str) → Str
  | t0, [] => t0
  | t0, (a, t) :: segs => t0 ++ (feature.getAttr a ++ substitutedText feature t segs)

/-- A feature whose `getAttr` reads the given attribute table, with the empty
string for a name that is not in it. -/
def featureOfAttrs (attrs : List (Str × Str)) (geometry : Option Geometry) : Feature where
  getAttr := fun name => ((attrs.lookup name).getD [])
  geometry := geometry
  annotationText := none

/-! ## `BuildTextOperator::operator()` -/

/-- A three-component vector (`osg::Vec3d`, `osg::Vec3f`). -/
abbrev Vec3 := ℚ × ℚ × ℚ

/-- A four-component vector (`osg::Vec4f`, `osg::Quat`). -/
abbrev Vec4 := ℚ × ℚ × ℚ × ℚ

/-- The values of `TextSymbol::SizeMode` (declared in a header outside the
sources at hand; only the two named here are tested). -/
inductive SizeMode where
  | screen
  | object
  | other
deriving DecidableEq

/-- The values of `TextSymbol::LinePlacement`; only `LINEPLACEMENT_ALONG_LINE`
is named in `BuildTextOperator.cpp`. -/
inductive LinePlacement where
  | alongLine
  | other
deriving DecidableEq

/-- The values of `TextSymbol::LineOrientation`; `LINEORIENTATION_HORIZONTAL` and
`LINEORIENTATION_PERPENDICULAR` are named in `BuildTextOperator.cpp`. -/
inductive LineOrientation where
  | horizontal
  | perpendicular
  | other
deriving DecidableEq

/-- A `TextSymbol`, as `operator()` reads it.  An `optional<T>` member is an
`Option`, `isSet()` being `isSome`. -/
structure TextSymbol where
  removeDuplicateLabels : Option Bool
  content : Option Str
  /-- The result of `contentAttributeDelimiter().value()`. -/
  contentAttributeDelimiter : Str
  /-- The member `attribute()`. -/
  attr : Option Str
  rotateToScreen : Option Bool
  linePlacement : Option LinePlacement
  lineOrientation : Option LineOrientation
  font : Option Str
  sizeMode : Option SizeMode
  size : Option ℚ
  /-- The result of `fill()->color()`. -/
  fillColor : Vec4
  /-- The result of `halo()->color()`. -/
  haloColor : Vec4

/-- The `osgText::Text` drawable built for one feature. -/
structure Label where
  text : Str
  font : Str
  autoRotateToScreen : Bool
  /-- The value given to `setCharacterSizeMode`, `none` when it is not called. -/
  characterSizeMode : Option SizeMode
  characterSize : ℚ
  position : Vec3
  rotation : Vec4
  color : Vec4
  backdropColor : Vec4
  /-- Whether a `CullPlaneCallback` was installed. -/
  clusterCulled : Bool
deriving DecidableEq

/-- The collaborators of `operator()` whose work is floating-point geometry. -/
structure LabelCollaborators where
  /-- The position and orientation left by the "find the centroid" loop over the
  parts of the feature's geometry, which reads the line placement and line
  orientation of the symbol and the filter context; the second argument is
  `rotateToScreen`. -/
  place : TextSymbol → Bool → Geometry → Vec3 × Vec4
  /-- The value of `context.isGeocentric()`. -/
  isGeocentric : Bool
  /-- Whether the polytope intersector built on the bound of the new text finds
  intersections with the drawables already in `result`. -/
  containsIntersections : List Label → Label → Bool

/-- The `text` that `operator()` resolves for a feature.  `parseAttributes`
always returns (`parseAttributes_isSome`), so the default of `getD` is never taken. -/
def resolveText (symbol : TextSymbol) (feature : Feature) : Str :=
  match feature.annotationText with
  | some text =>
    -- If the feature is a TextAnnotation, just get the value from it
    text
  | none =>
    match symbol.content with
    | some content =>
      -- Get the text from the specified content and referenced attributes
      (parseAttributes feature content symbol.contentAttributeDelimiter).getD []
    | none =>
      match symbol.attr with
      | some attr =>
        -- Get the text from the specified attribute
        feature.getAttr attr
      | none => []

/-- The drawable `t` as it is when the clutter test is reached. -/
def makeLabel (env : LabelCollaborators) (symbol : TextSymbol) (text : Str)
    (geom : Geometry) : Label :=
  let rotateToScreen := symbol.rotateToScreen.getD false
  let placement := env.place symbol rotateToScreen geom
  let font : Str :=
    match symbol.font with
    | some f => if f ≠ [] then f else "fonts/arial.ttf".toList
    | none => "fonts/arial.ttf".toList
  let sizeMode := symbol.sizeMode.getD SizeMode.screen
  { text := text
    font := font
    autoRotateToScreen := rotateToScreen
    characterSizeMode :=
      if sizeMode = SizeMode.screen then some SizeMode.screen
      else if sizeMode = SizeMode.object then some SizeMode.object
      else none
    characterSize := symbol.size.getD 32
    position := placement.1
    rotation := placement.2
    color := symbol.fillColor
    backdropColor := symbol.haloColor
    clusterCulled := env.isGeocentric }

/-- The variables that live across the passes of the loop over the features. -/
structure LabelState where
  /-- The set `labelNames`, as the list of the texts inserted so far. -/
  labelNames : List Str
  /-- The drawables of the geode `result`, in the order of `addDrawable`. -/
  result : List Label

/-- The effect of `result->addDrawable(t); if (removeDuplicateLabels) labelNames.insert(text);`. -/
def LabelState.add (st : LabelState) (removeDuplicateLabels : Bool) (t : Label) : LabelState :=
  { result := st.result ++ [t]
    labelNames :=
      if removeDuplicateLabels then
        (if t.text ∈ st.labelNames then st.labelNames else t.text :: st.labelNames)
      else st.labelNames }

/-- One pass of the loop over the features in `operator()`. -/
def labelStep (env : LabelCollaborators) (hideClutter : Bool) (symbol : TextSymbol)
    (removeDuplicateLabels : Bool) (st : LabelState) (feature : Feature) : LabelState :=
  match feature.geometry with
  | none => st
  | some geom =>
    let text := resolveText symbol feature
    if text = [] then st
    -- See if there is a duplicate name
    else if removeDuplicateLabels ∧ text ∈ st.labelNames then st
    else
      let t := makeLabel env symbol text geom
      if hideClutter then
        if ¬ env.containsIntersections st.result t then st.add removeDuplicateLabels t
        else st
      else st.add removeDuplicateLabels t

/-- The call `BuildTextOperator::operator()(features, symbol, context)`; the first
argument after the collaborators is the member `_hideClutter`.  The result is the
list of drawables of the returned geode, `none` for the null return. -/
def BuildTextOperator.operator (env : LabelCollaborators) (hideClutter : Bool) (features : List Feature)
    (symbol : Option TextSymbol) : Option (List Label) :=
  match symbol with
  | none => none
  | some symbol =>
    let removeDuplicateLabels := symbol.removeDuplicateLabels.getD false
    some (features.foldl (labelStep env hideClutter symbol removeDuplicateLabels)
      { labelNames := [], result := [] }).result

/-- The resolved texts that can give a label: those of the features that have a
geometry and resolve to a non-empty text, in the order of the features. -/
def eligibleTexts (symbol : TextSymbol) (features : List Feature) : List Str :=
  features.filterMap fun f =>
    if f.geometry.isSome ∧ resolveText symbol f ≠ [] then some (resolveText symbol f) else none

/-- The list of the distinct members of a list of texts, each at the place of its
first occurrence. -/
def firstOccurrences : List Str → List Str
  | [] => []
  | t :: ts => t :: (firstOccurrences ts).filter fun u => decide (u ≠ t)

/-! ## Terrain culling: data -/

/-- A layer identifier (`UID`, a signed integer; `-1` names the default pass). -/
abbrev UID := Int

/-- A two-component vector (`osg::Vec2f`). -/
abbrev Vec2 := ℚ × ℚ

/-- A 4x4 matrix (`osg::Matrix`), as the list of its entries. -/
abbrev Matrix := List ℚ

/-- A bounding sphere: centre and radius. -/
abbrev BoundingSphere := Vec3 × ℚ

/-- A bounding box: minimum and maximum corner. -/
abbrev BoundingBox := Vec3 × Vec3

/-- A `TileKey`. -/
structure TileKey where
  lod : Nat
  x : Nat
  y : Nat
deriving DecidableEq

/-- The values of `Layer::RenderType`; only `RENDERTYPE_TILE` is named in
`TerrainCuller.cpp`. -/
inductive RenderType where
  | tile
  | other
deriving DecidableEq

/-- A `Layer`, as the culler reads it. -/
structure Layer where
  uid : UID
  renderType : RenderType
deriving DecidableEq

/-- An `ImageLayer`, as the culler reads it. -/
structure ImageLayer where
  uid : UID
  visible : Bool
deriving DecidableEq

/-- A `RenderingPass`.  The two `ref_ptr` members are `none` when not `valid()`. -/
structure RenderingPass where
  sourceUID : UID
  layer : Option Layer
  imageLayer : Option ImageLayer
deriving DecidableEq

/-- The test `pass._imageLayer.valid() && !pass._imageLayer->getVisible()`. -/
def RenderingPass.hidden (pass : RenderingPass) : Bool :=
  match pass.imageLayer with
  | some imageLayer => !imageLayer.visible
  | none => false

/-- The test `pass._layer.valid() && pass._layer->getRenderType() == Layer::RENDERTYPE_TILE`. -/
def RenderingPass.isTilePass (pass : RenderingPass) : Bool :=
  match pass.layer with
  | some layer => layer.renderType = RenderType.tile
  | none => false

/-- A `DrawTileCommand`.  `pass` is the borrowed pointer `_pass`, `geom` and
`drawCallback` are handles to shared objects. -/
structure DrawTileCommand where
  pass : Option RenderingPass
  matrix : Matrix
  modelViewMatrix : Matrix
  keyValue : Vec4
  geom : Option Nat
  morphConstants : Vec2
  key : TileKey
  range : ℚ
  /-- The member `_elevTexelCoeff`, a vector of two `float`. -/
  elevTexelCoeff : Vec2
  drawPatch : Bool
  drawCallback : Option Nat
deriving DecidableEq

/-- A `LayerDrawable`: the batch of draw commands of one layer. -/
structure LayerDrawable where
  tiles : List DrawTileCommand
deriving DecidableEq

/-- A `PatchLayer`, as the culler reads it. -/
structure PatchLayer where
  uid : UID
  /-- The member `getAcceptCallback()`, with its `accept(key)`; `none` for `0L`. -/
  acceptCallback : Option (TileKey → Bool)
  /-- The member `getDrawCallback()`. -/
  drawCallback : Option Nat

/-- The condition under which `apply` builds a patch draw for the layer:
`layer->getAcceptCallback() == 0L || layer->getAcceptCallback()->accept(key)`. -/
def PatchLayer.accepts (layer : PatchLayer) (key : TileKey) : Bool :=
  match layer.acceptCallback with
  | none => true
  | some callback => callback key

/-- A `SurfaceNode`, as the culler reads it. -/
structure SurfaceNode where
  matrix : Matrix
  inverseMatrix : Matrix
  bound : BoundingSphere
  /-- The member `getDrawable()->_geom`. -/
  geom : Option Nat
  /-- Whether `getReferenceFrame()` is `ABSOLUTE_RF`. -/
  absoluteReferenceFrame : Bool

/-- An elevation raster (`osg::Image`); `s` is its width, an `int`. -/
structure Image where
  s : Int
deriving DecidableEq

/-- A `TileRenderModel`. -/
structure TileRenderModel where
  passes : List RenderingPass
  /-- The member function `getPass(uid)` (defined outside the sources at hand):
  a pointer to a pass of the model, `none` for null. -/
  getPass : UID → Option RenderingPass

/-- A `TileNode`, as the culler reads it. -/
structure TileNode where
  key : TileKey
  keyValue : Vec4
  morphConstants : Vec2
  surfaceNode : SurfaceNode
  elevationRaster : Option Image
  renderModel : TileRenderModel

/-- The `DrawState` of the frame: the running bounding sphere and box. -/
structure DrawState where
  bs : BoundingSphere
  box : BoundingBox

/-- The `TerrainRenderData` member `_terrain`. -/
structure TerrainRenderData where
  /-- The lookup `layer(uid)` of the batch of a layer, `none` for null. -/
  layer : UID → Option LayerDrawable
  patchLayers : List PatchLayer
  tileLayers : List Layer
  drawState : DrawState

/-- The batches after the one of `uid` has been replaced. -/
def TerrainRenderData.setLayer (terrain : TerrainRenderData) (uid : UID)
    (drawable : LayerDrawable) : TerrainRenderData :=
  { terrain with layer := fun u => if u = uid then some drawable else terrain.layer u }

/-- The `EngineContext` member `_context`, as the culler reads it. -/
structure EngineContext where
  useTextureBorder : Bool

/-- The number of values of the counter `_orphanedPassesDetected`, an `unsigned`
member (the constructor initialises it with `0u`): `++` on it wraps at `2^32`. -/
def counterModulus : Nat := 2 ^ 32

/-- The state of a `TerrainCuller`. -/
structure TerrainCuller where
  context : EngineContext
  terrain : TerrainRenderData
  currentTileNode : Option TileNode
  orphanedPassesDetected : Nat
  /-- The model-view stack of the `osg::CullStack` base, top first. -/
  modelViewStack : List Matrix

/-- The collaborators of the culler whose work is floating-point geometry, and
the default-constructed draw command. -/
structure CullCollaborators where
  /-- The value `DrawTileCommand()`. -/
  newCommand : DrawTileCommand
  /-- The identity matrix that `getModelViewMatrix()` returns on an empty stack. -/
  identity : Matrix
  /-- The effect of `surface->computeLocalToWorldMatrix(mvm, this)` on `mvm`. -/
  computeLocalToWorldMatrix : SurfaceNode → Matrix → Matrix
  /-- The value of `getViewPointLocal()`, which the cull stack derives from its
  model-view stack. -/
  getViewPointLocal : List Matrix → Vec3
  /-- The `float` that `getLODScale()` returns. -/
  getLODScale : ℚ
  /-- The product `v * m` of a vector and a matrix. -/
  transform : Vec3 → Matrix → Vec3
  /-- The `float` that `(a - b).length()` returns for two vectors. -/
  distance : Vec3 → Vec3 → ℚ
  /-- The effect of `_bs.expandBy(bound)`. -/
  expandSphere : BoundingSphere → BoundingSphere → BoundingSphere
  /-- The effect of `_box.expandBy(_bs)`. -/
  expandBox : BoundingBox → BoundingSphere → BoundingBox

/-! ## Terrain culling: operations -/

/-- The call `getModelViewMatrix()`: the top of the stack. -/
def TerrainCuller.getModelViewMatrix (env : CullCollaborators) (s : TerrainCuller) : Matrix :=
  match s.modelViewStack with
  | m :: _ => m
  | [] => env.identity

/-- The call `pushModelViewMatrix(m, referenceFrame)`. -/
def TerrainCuller.pushModelViewMatrix (s : TerrainCuller) (m : Matrix) : TerrainCuller :=
  { s with modelViewStack := m :: s.modelViewStack }

/-- The call `popModelViewMatrix()`. -/
def TerrainCuller.popModelViewMatrix (s : TerrainCuller) : TerrainCuller :=
  { s with modelViewStack := s.modelViewStack.tail }

/-- The function `TerrainCuller::getDistanceToViewPoint(pos, withLODScale)`. -/
def TerrainCuller.getDistanceToViewPoint (env : CullCollaborators) (s : TerrainCuller)
    (pos : Vec3) (withLODScale : Bool) : ℚ :=
  if withLODScale then
    toFloat (env.distance pos (env.getViewPointLocal s.modelViewStack) * env.getLODScale)
  else env.distance pos (env.getViewPointLocal s.modelViewStack)

/-- The function `TerrainCuller::addDrawCommand(uid, pass, tileNode)`: the
command returned (`none` for `0L`) and the state left.  For a raster of width `0`
the source divides by zero; the values it then stores are not finite and are not
part of the embedding. -/
def TerrainCuller.addDrawCommand (env : CullCollaborators) (s : TerrainCuller) (uid : UID)
    (pass : RenderingPass) (tileNode : TileNode) : Option DrawTileCommand × TerrainCuller :=
  let surface := tileNode.surfaceNode
  -- skip layers that are not visible:
  if pass.hidden then (none, s)
  else
    -- add a new Draw command to the appropriate layer
    match s.terrain.layer uid with
    | some layer =>
      let c := env.transform surface.bound.1 surface.inverseMatrix
      -- install everything we need in the Draw Command:
      let tile : DrawTileCommand :=
        { env.newCommand with
          pass := some pass
          matrix := surface.matrix
          modelViewMatrix := s.getModelViewMatrix env
          keyValue := tileNode.keyValue
          geom := surface.geom
          morphConstants := tileNode.morphConstants
          key := tileNode.key
          range := s.getDistanceToViewPoint env c true }
      let tile : DrawTileCommand :=
        match tileNode.elevationRaster with
        | some elevRaster =>
          -- float bias = _context->getUseTextureBorder() ? 1.5 : 0.5;
          let bias : ℚ := toFloat (if s.context.useTextureBorder then 3 / 2 else 1 / 2)
          -- float size = (float)elevRaster->s();
          let size : ℚ := toFloat (elevRaster.s : ℚ)
          -- (size - (2.0*bias)) / size is taken in double and narrowed to the float
          -- component of the Vec2f; bias / size is taken in float
          { tile with
            elevTexelCoeff :=
              (toFloat (toDouble (toDouble (size - toDouble (2 * bias)) / size)),
               toFloat (bias / size)) }
        | none => tile
      (some tile,
        { s with terrain := s.terrain.setLayer uid ({ tiles := layer.tiles ++ [tile] }) })
    | none =>
      (none, { s with orphanedPassesDetected := (s.orphanedPassesDetected + 1) % counterModulus })

/-- The writes `cmd->_drawPatch = true; cmd->_drawCallback = layer->getDrawCallback();`
through the pointer that `addDrawCommand(uid, ...)` returned, which points at the
last command of the batch of `uid`. -/
def TerrainCuller.markPatch (s : TerrainCuller) (uid : UID) (drawCallback : Option Nat) :
    TerrainCuller :=
  match s.terrain.layer uid with
  | some layer =>
    match layer.tiles.getLast? with
    | some cmd =>
      let cmd1 : DrawTileCommand := { cmd with drawPatch := true, drawCallback := drawCallback }
      { s with terrain := s.terrain.setLayer uid ({ tiles := layer.tiles.dropLast ++ [cmd1] }) }
    | none => s
  | none => s

/-- The loop over `_terrain.patchLayers()` in the tile branch of `apply`.  The
flag is the local `pushedMatrix`; `none` is a dereference of a null `defaultPass`. -/
def TerrainCuller.patchLoop (env : CullCollaborators) (tileNode : TileNode)
    (defaultPass : Option RenderingPass) :
    List PatchLayer → Bool → TerrainCuller → Option (Bool × TerrainCuller)
  | [], pushedMatrix, s => some (pushedMatrix, s)
  | layer :: rest, pushedMatrix, s =>
    if layer.accepts tileNode.key then
      -- Push this tile's matrix if we haven't already done so:
      let s1 :=
        if !pushedMatrix then
          s.pushModelViewMatrix
            (env.computeLocalToWorldMatrix tileNode.surfaceNode (s.getModelViewMatrix env))
        else s
      -- Add the draw command:
      match defaultPass with
      | none => none
      | some pass =>
        match s1.addDrawCommand env layer.uid pass tileNode with
        | (some _, s2) => patchLoop env tileNode defaultPass rest true (s2.markPatch layer.uid layer.drawCallback)
        | (none, s2) => patchLoop env tileNode defaultPass rest true s2
    else patchLoop env tileNode defaultPass rest pushedMatrix s

/-- The first loop of the surface branch of `apply`, over `renderModel._passes`.
The local `count` that the loop increments is never read and is left out. -/
def TerrainCuller.passLoop (env : CullCollaborators) (tileNode : TileNode) :
    List RenderingPass → TerrainCuller → TerrainCuller
  | [], s => s
  | pass :: rest, s =>
    if pass.isTilePass then
      passLoop env tileNode rest (s.addDrawCommand env pass.sourceUID pass tileNode).2
    else passLoop env tileNode rest s

/-- The second loop of the surface branch of `apply`, over `_terrain.tileLayers()`;
`none` is the dereference of a null `renderModel.getPass(-1)`. -/
def TerrainCuller.tileLayerLoop (env : CullCollaborators) (tileNode : TileNode) :
    List Layer → TerrainCuller → Option TerrainCuller
  | [], s => some s
  | layer :: rest, s =>
    match tileNode.renderModel.getPass (-1) with
    | none => none
    | some pass =>
      tileLayerLoop env tileNode rest (s.addDrawCommand env layer.uid pass tileNode).2

/-- The nodes that `apply` tells apart by `dynamic_cast`. -/
inductive Node where
  | tile (tileNode : TileNode)
  | surface (surface : SurfaceNode)
  | other

/-- The function `TerrainCuller::apply(node)` up to the call `traverse(node)`.
`none` is a dereference of a null pointer. -/
def TerrainCuller.apply (env : CullCollaborators) (s : TerrainCuller) (node : Node) :
    Option TerrainCuller :=
  match node with
  | Node.tile tileNode =>
    let s := { s with currentTileNode := some tileNode }
    if !s.terrain.patchLayers.isEmpty then
      -- Patch layers will use the default (empty) pass for now.
      let defaultPass := tileNode.renderModel.getPass (-1)
      match TerrainCuller.patchLoop env tileNode defaultPass s.terrain.patchLayers false s with
      | none => none
      | some (pushedMatrix, s1) =>
        if pushedMatrix then some s1.popModelViewMatrix else some s1
    else some s
  | Node.surface surface =>
    match s.currentTileNode with
    | none => none
    | some tileNode =>
      -- push the surface matrix:
      let s1 := s.pushModelViewMatrix
        (env.computeLocalToWorldMatrix surface (s.getModelViewMatrix env))
      -- First go through any legit rendering pass data in the Tile and
      -- and add a DrawCommand for each.
      let s2 := TerrainCuller.passLoop env tileNode tileNode.renderModel.passes s1
      -- Next, add a DrawCommand for each "global" tile layer
      match TerrainCuller.tileLayerLoop env tileNode s2.terrain.tileLayers s2 with
      | none => none
      | some s3 =>
        let s4 := s3.popModelViewMatrix
        let bs := env.expandSphere s4.terrain.drawState.bs surface.bound
        let box := env.expandBox s4.terrain.drawState.box bs
        some { s4 with terrain := { s4.terrain with drawState := { bs := bs, box := box } } }
  | Node.other => some s

/-! ## Counts used to state the results on `apply` -/

/-- The number of passes of the tile with source uid `u` whose layer is valid and
of render type tile and that are not an invisible image layer. -/
def passDraws (tileNode : TileNode) (u : UID) : Nat :=
  tileNode.renderModel.passes.countP
    fun pass => pass.isTilePass && !pass.hidden && decide (pass.sourceUID = u)

/-- The number of registrations of `u` as a global tile layer, counted when the
tile has a default pass that is not an invisible image layer, and zero otherwise. -/
def globalDraws (s : TerrainCuller) (tileNode : TileNode) (u : UID) : Nat :=
  match tileNode.renderModel.getPass (-1) with
  | some defaultPass =>
    if defaultPass.hidden then 0
    else s.terrain.tileLayers.countP fun layer => decide (layer.uid = u)
  | none => 0

/-! ## Concrete data for the worked instances -/

/-- Label collaborators that place every label at the origin, unrotated, and
never report clutter. -/
def flatLabels : LabelCollaborators where
  place := fun _ _ _ => ((0, 0, 0), (0, 0, 0, 1))
  isGeocentric := false
  containsIntersections := fun _ _ => false

/-- A text symbol that labels a feature with its attribute `name` and removes
duplicate labels. -/
def nameSymbol : TextSymbol where
  removeDuplicateLabels := some true
  content := none
  contentAttributeDelimiter := "[]".toList
  attr := some "name".toList
  rotateToScreen := none
  linePlacement := none
  lineOrientation := none
  font := none
  sizeMode := none
  size := none
  fillColor := (1, 1, 1, 1)
  haloColor := (0, 0, 0, 1)

/-- A point feature named `Lake`. -/
def lakeFeature : Feature :=
  featureOfAttrs [("name".toList, "Lake".toList)] (some { parts := [(false, [(0, 0, 0)])] })

/-- A point feature named `Pond`. -/
def pondFeature : Feature :=
  featureOfAttrs [("name".toList, "Pond".toList)] (some { parts := [(false, [(1, 1, 0)])] })

/-- A default-constructed draw command: null pointers, zeroes, no patch draw. -/
def blankCommand : DrawTileCommand where
  pass := none
  matrix := []
  modelViewMatrix := []
  keyValue := (0, 0, 0, 0)
  geom := none
  morphConstants := (0, 0)
  key := { lod := 0, x := 0, y := 0 }
  range := 0
  elevTexelCoeff := (0, 0)
  drawPatch := false
  drawCallback := none

/-- Cull collaborators that leave matrices and bounds as they are. -/
def plainCull : CullCollaborators where
  newCommand := blankCommand
  identity := []
  computeLocalToWorldMatrix := fun surface _ => surface.matrix
  getViewPointLocal := fun _ => (0, 0, 0)
  getLODScale := 1
  transform := fun v _ => v
  distance := fun _ _ => 0
  expandSphere := fun a _ => a
  expandBox := fun a _ => a

/-- A render model over the given passes whose `getPass(uid)` is the first pass
with that source uid. -/
def renderModelOf (passes : List RenderingPass) : TileRenderModel where
  passes := passes
  getPass := fun uid => passes.find? fun pass => pass.sourceUID = uid

/-- A tile at key `(1, 0, 0)` with the given render model and elevation raster. -/
def tileOf (renderModel : TileRenderModel) (elevationRaster : Option Image) : TileNode where
  key := { lod := 1, x := 0, y := 0 }
  keyValue := (0, 0, 1, 0)
  morphConstants := (0, 0)
  surfaceNode :=
    { matrix := [], inverseMatrix := [], bound := ((0, 0, 0), 1), geom := some 0,
      absoluteReferenceFrame := false }
  elevationRaster := elevationRaster
  renderModel := renderModel

/-- A culler whose only batch is the empty batch of layer `1`, with the given
patch layers, global tile layers, texture-border flag and counter value. -/
def cullerOf (patchLayers : List PatchLayer) (tileLayers : List Layer)
    (useTextureBorder : Bool) (orphaned : Nat) : TerrainCuller where
  context := { useTextureBorder := useTextureBorder }
  terrain :=
    { layer := fun uid => if uid = 1 then some { tiles := [] } else none
      patchLayers := patchLayers
      tileLayers := tileLayers
      drawState := { bs := ((0, 0, 0), 0), box := ((0, 0, 0), (0, 0, 0)) } }
  currentTileNode := none
  orphanedPassesDetected := orphaned
  modelViewStack := []

/-- The culler after it has recorded `tileNode` as its current tile. -/
def withCurrentTile (s : TerrainCuller) (tileNode : TileNode) : TerrainCuller :=
  { s with currentTileNode := some tileNode }

/-- The default pass: source uid `-1`, no layer, no image layer. -/
def emptyPass : RenderingPass := { sourceUID := -1, layer := none, imageLayer := none }

/-- A pass of an image layer with the given uid and visibility, of render type tile. -/
def imagePass (uid : UID) (visible : Bool) : RenderingPass :=
  { sourceUID := uid
    layer := some { uid := uid, renderType := RenderType.tile }
    imageLayer := some { uid := uid, visible := visible } }

/-! # Theorems -/

/-! ### Lemmas on the floating-point rounding -/

/-- With enough fuel `bitLog` is the exponent of the leading bit. -/
theorem bitLog_spec : ∀ (fuel n : Nat), 1 ≤ n → n ≤ fuel →
    2 ^ bitLog fuel n ≤ n ∧ n < 2 ^ (bitLog fuel n + 1) := by
  intro fuel
  induction fuel with
  | zero => intro n h1 h2; omega
  | succ fuel ih =>
    intro n h1 h2
    by_cases hn : n < 2
    · simp only [bitLog, hn, if_true]
      constructor <;> simp <;> omega
    · simp only [bitLog, hn, if_false]
      obtain ⟨hlo, hhi⟩ := ih (n / 2) (by omega) (by omega)
      rw [Nat.pow_succ] at hhi ⊢
      rw [Nat.pow_succ]
      constructor <;> omega

/-- The exponent `log2Nat n` satisfies `2^e ≤ n < 2^(e+1)`. -/
theorem log2Nat_spec (n : Nat) (h : 1 ≤ n) :
    2 ^ log2Nat n ≤ n ∧ n < 2 ^ (log2Nat n + 1) :=
  bitLog_spec n n h (Nat.le_refl n)

/-- The integer `roundHalfEven n d` is `⌊n/d⌋` or the next one, and is within one
half of `n / d`. -/
theorem roundHalfEven_bounds (n d : Nat) (hd : 0 < d) :
    n / d ≤ roundHalfEven n d ∧ roundHalfEven n d ≤ n / d + 1 ∧
    2 * (d * roundHalfEven n d) ≤ 2 * n + d ∧ 2 * n ≤ 2 * (d * roundHalfEven n d) + d := by
  have hdiv := Nat.div_add_mod n d
  have hmod := Nat.mod_lt n hd
  unfold roundHalfEven
  simp only
  generalize n / d = q at *
  generalize n % d = r at *
  have hmul : d * (q + 1) = d * q + d := by ring
  split
  · refine ⟨le_refl _, by omega, ?_, ?_⟩ <;> omega
  · split
    · refine ⟨by omega, le_refl _, ?_, ?_⟩ <;> omega
    · split
      · refine ⟨le_refl _, by omega, ?_, ?_⟩ <;> omega
      · refine ⟨by omega, le_refl _, ?_, ?_⟩ <;> omega

/-- The exponent `floorLog2 n d` satisfies `2^e ≤ n / d < 2^(e+1)`. -/
theorem floorLog2_spec (n d : Nat) (hn : 0 < n) (hd : 0 < d) :
    (2 : ℚ) ^ floorLog2 n d ≤ (n : ℚ) / d ∧ (n : ℚ) / d < (2 : ℚ) ^ (floorLog2 n d + 1) := by
  obtain ⟨hn1, hn2⟩ := log2Nat_spec n hn
  obtain ⟨hd1, hd2⟩ := log2Nat_spec d hd
  have hdq : (0 : ℚ) < d := by exact_mod_cast hd
  have h2 : (2 : ℚ) ≠ 0 := by norm_num
  unfold floorLog2
  simp only
  by_cases ht : (0 : ℤ) ≤ (log2Nat n : ℤ) - (log2Nat d : ℤ)
  · -- the exponent of `n` is at least that of `d`
    obtain ⟨τ, hτ⟩ : ∃ τ : ℕ, log2Nat n = log2Nat d + τ := ⟨log2Nat n - log2Nat d, by omega⟩
    have htτ : (log2Nat n : ℤ) - (log2Nat d : ℤ) = (τ : ℤ) := by omega
    rw [hτ, Nat.pow_add] at hn1
    rw [hτ, Nat.add_right_comm, Nat.pow_add] at hn2
    rw [htτ]
    simp only [Int.natCast_nonneg, if_true, Int.toNat_ofNat]
    have hn1q : ((2 : ℚ) ^ log2Nat d) * 2 ^ τ ≤ n := by exact_mod_cast hn1
    have hn2q : (n : ℚ) < 2 ^ (log2Nat d + 1) * 2 ^ τ := by exact_mod_cast hn2
    have hd1q : (2 : ℚ) ^ log2Nat d ≤ d := by exact_mod_cast hd1
    have hd2q : (d : ℚ) < 2 ^ (log2Nat d + 1) := by exact_mod_cast hd2
    have hpos : (0 : ℚ) < 2 ^ τ := by positivity
    by_cases hc : d * 2 ^ τ ≤ n
    · have hcq : (d : ℚ) * 2 ^ τ ≤ n := by exact_mod_cast hc
      simp only [hc, if_true]
      rw [zpow_add_one₀ h2, zpow_natCast, le_div_iff₀ hdq, div_lt_iff₀ hdq]
      constructor
      · linarith [mul_comm (d : ℚ) (2 ^ τ)]
      · rw [pow_succ] at hn2q
        nlinarith
    · have hcq : (n : ℚ) < d * 2 ^ τ := by exact_mod_cast (Nat.lt_of_not_le hc)
      simp only [hc, if_false]
      rw [sub_add_cancel, zpow_sub_one₀ h2, zpow_natCast, le_div_iff₀ hdq, div_lt_iff₀ hdq]
      constructor
      · rw [pow_succ] at hd2q
        nlinarith
      · linarith [mul_comm (d : ℚ) (2 ^ τ)]
  · obtain ⟨σ, hσ⟩ : ∃ σ : ℕ, log2Nat d = log2Nat n + σ := ⟨log2Nat d - log2Nat n, by omega⟩
    have htσ : (log2Nat n : ℤ) - (log2Nat d : ℤ) = -(σ : ℤ) := by omega
    rw [hσ, Nat.pow_add] at hd1
    rw [hσ, Nat.add_right_comm, Nat.pow_add] at hd2
    have hneg : ¬ (0 : ℤ) ≤ -(σ : ℤ) := by omega
    rw [htσ]
    simp only [hneg, if_false, neg_neg, Int.toNat_ofNat]
    have hn1q : ((2 : ℚ) ^ log2Nat n) ≤ n := by exact_mod_cast hn1
    have hn2q : (n : ℚ) < 2 ^ (log2Nat n + 1) := by exact_mod_cast hn2
    have hd1q : (2 : ℚ) ^ log2Nat n * 2 ^ σ ≤ d := by exact_mod_cast hd1
    have hd2q : (d : ℚ) < 2 ^ (log2Nat n + 1) * 2 ^ σ := by exact_mod_cast hd2
    have hpos : (0 : ℚ) < 2 ^ σ := by positivity
    by_cases hc : d ≤ n * 2 ^ σ
    · have hcq : (d : ℚ) ≤ n * 2 ^ σ := by exact_mod_cast hc
      simp only [hc, if_true]
      rw [zpow_add_one₀ h2, zpow_neg, zpow_natCast, le_div_iff₀ hdq, div_lt_iff₀ hdq,
        inv_mul_le_iff₀ hpos]
      constructor
      · linarith [mul_comm (n : ℚ) (2 ^ σ)]
      · rw [pow_succ] at hn2q
        have : (n : ℚ) * 2 ^ σ < 2 * d := by nlinarith
        rw [mul_assoc, mul_comm ((2:ℚ)^σ)⁻¹, ← div_eq_mul_inv, lt_div_iff₀ hpos] 
        linarith
    · have hcq : (n : ℚ) * 2 ^ σ < d := by exact_mod_cast (Nat.lt_of_not_le hc)
      simp only [hc, if_false]
      rw [sub_add_cancel, zpow_sub_one₀ h2, zpow_neg, zpow_natCast, le_div_iff₀ hdq,
        div_lt_iff₀ hdq]
      constructor
      · rw [pow_succ] at hd2q
        have : (d : ℚ) ≤ 2 * (n * 2 ^ σ) := by nlinarith
        have e : ((2 : ℚ) ^ σ)⁻¹ * 2⁻¹ * d = d / (2 * 2 ^ σ) := by
          field_simp
          left; ring
        rw [e, div_le_iff₀ (by positivity)]
        linarith
      · rw [inv_mul_eq_div, lt_div_iff₀ hpos]
        linarith

theorem roundHalfEven_scaled (N D P : Nat) (hD : 0 < D)
    (hlo : (2 : ℚ) ^ P ≤ (N : ℚ) / D) (hhi : (N : ℚ) / D < 2 ^ (P + 1)) :
    (2 : ℚ) ^ P ≤ roundHalfEven N D ∧ (roundHalfEven N D : ℚ) ≤ 2 ^ (P + 1) ∧
    |(N : ℚ) / D - roundHalfEven N D| ≤ 1 / 2 := by
  obtain ⟨h1, h2, h3, h4⟩ := roundHalfEven_bounds N D hD
  have hDq : (0 : ℚ) < D := by exact_mod_cast hD
  have h3q : (2 : ℚ) * (D * roundHalfEven N D) ≤ 2 * N + D := by exact_mod_cast h3
  have h4q : (2 : ℚ) * N ≤ 2 * (D * roundHalfEven N D) + D := by exact_mod_cast h4
  have hloN : 2 ^ P ≤ N / D := by
    rw [Nat.le_div_iff_mul_le hD]
    rw [le_div_iff₀ hDq] at hlo
    exact_mod_cast hlo
  have hhiN : N / D < 2 ^ (P + 1) := by
    rw [Nat.div_lt_iff_lt_mul hD]
    rw [div_lt_iff₀ hDq] at hhi
    exact_mod_cast hhi
  refine ⟨?_, ?_, ?_⟩
  · exact_mod_cast le_trans hloN h1
  · have : roundHalfEven N D ≤ 2 ^ (P + 1) := by omega
    exact_mod_cast this
  · rw [abs_le]
    constructor
    · rw [le_sub_iff_add_le, le_div_iff₀ hDq]; nlinarith
    · rw [sub_le_iff_le_add, div_le_iff₀ hDq]; nlinarith

/-- `roundFloat p x` is a `p`-bit significand times a power of two, has the sign
of `x`, and differs from `x` by at most half a unit in the last place. -/
theorem roundFloat_nearest (P : Nat) (x : ℚ) (hx : x ≠ 0) :
    ∃ (m : Nat) (k : Int),
      roundFloat (P + 1) x = (if x < 0 then -1 else 1) * ((m : ℚ) * 2 ^ (-k)) ∧
      (2 : ℚ) ^ P ≤ m ∧ (m : ℚ) ≤ 2 ^ (P + 1) ∧
      |x - roundFloat (P + 1) x| ≤ 2 ^ (-k) / 2 := by
  have hn : 0 < x.num.natAbs := Int.natAbs_pos.mpr (Rat.num_ne_zero.mpr hx)
  have hd : 0 < x.den := x.den_pos
  have hdq : (0 : ℚ) < x.den := by exact_mod_cast hd
  have h2 : (2 : ℚ) ≠ 0 := by norm_num
  have habs : |x| = (x.num.natAbs : ℚ) / x.den := by
    conv_lhs => rw [← Rat.num_div_den x]
    rw [abs_div, Nat.abs_cast, Nat.cast_natAbs, Int.cast_abs]
  obtain ⟨hlo, hhi⟩ := floorLog2_spec x.num.natAbs x.den hn hd
  rw [← habs] at hlo hhi
  set e := floorLog2 x.num.natAbs x.den with he
  set k : Int := ((P + 1 : ℕ) : Int) - 1 - e with hk
  have hpk : (0 : ℚ) < 2 ^ k := by positivity
  have hpnk : (0 : ℚ) < 2 ^ (-k) := by positivity
  -- the scaled magnitude lies in `[2^P, 2^(P+1))`
  have hslo : (2 : ℚ) ^ P ≤ |x| * 2 ^ k := by
    have : (2 : ℚ) ^ (P : ℤ) = 2 ^ e * 2 ^ k := by
      rw [← zpow_add₀ h2]; congr 1; rw [hk]; push_cast; ring
    rw [← zpow_natCast, this]
    exact mul_le_mul_of_nonneg_right hlo hpk.le
  have hshi : |x| * 2 ^ k < (2 : ℚ) ^ (P + 1) := by
    have : (2 : ℚ) ^ ((P + 1 : ℕ) : ℤ) = 2 ^ (e + 1) * 2 ^ k := by
      rw [← zpow_add₀ h2]; congr 1; rw [hk]; push_cast; ring
    rw [← zpow_natCast, this]
    exact mul_lt_mul_of_pos_right hhi hpk
  -- the significand
  obtain ⟨m, hm, hmlo, hmhi, hmerr⟩ : ∃ m : Nat,
      (if 0 ≤ k then roundHalfEven (x.num.natAbs * 2 ^ k.toNat) x.den
        else roundHalfEven x.num.natAbs (x.den * 2 ^ (-k).toNat)) = m ∧
      (2 : ℚ) ^ P ≤ m ∧ (m : ℚ) ≤ 2 ^ (P + 1) ∧ |(|x| * 2 ^ k - (m : ℚ))| ≤ 1 / 2 := by
    by_cases hk0 : 0 ≤ k
    · have hkk : k = (k.toNat : ℤ) := (Int.toNat_of_nonneg hk0).symm
      have hval : ((x.num.natAbs * 2 ^ k.toNat : ℕ) : ℚ) / x.den = |x| * 2 ^ k := by
        rw [habs]; conv_rhs => rw [hkk, zpow_natCast]
        push_cast; ring
      have := roundHalfEven_scaled (x.num.natAbs * 2 ^ k.toNat) x.den P hd
        (by rw [hval]; exact hslo) (by rw [hval]; exact hshi)
      rw [hval] at this
      exact ⟨_, by simp only [hk0, if_true], this⟩
    · have hkk : -k = ((-k).toNat : ℤ) := (Int.toNat_of_nonneg (by omega)).symm
      have hval : (x.num.natAbs : ℚ) / ((x.den * 2 ^ (-k).toNat : ℕ) : ℚ) = |x| * 2 ^ k := by
        rw [habs]
        have : (2 : ℚ) ^ k = ((2 : ℚ) ^ (-k).toNat)⁻¹ := by
          rw [← zpow_natCast, ← hkk, zpow_neg, inv_inv]
        rw [this]; push_cast; field_simp
      have := roundHalfEven_scaled x.num.natAbs (x.den * 2 ^ (-k).toNat) P
        (Nat.mul_pos hd (by positivity)) (by rw [hval]; exact hslo) (by rw [hval]; exact hshi)
      rw [hval] at this
      exact ⟨_, by simp only [hk0, if_false], this⟩
  have hround : roundFloat (P + 1) x = (if x < 0 then -1 else 1) * ((m : ℚ) * 2 ^ (-k)) := by
    unfold roundFloat
    simp only [hx, if_false]
    rw [← he, ← hk, hm]
    split <;> ring
  refine ⟨m, k, hround, hmlo, hmhi, ?_⟩
  have hmag : |x| - (m : ℚ) * 2 ^ (-k) = (|x| * 2 ^ k - m) * 2 ^ (-k) := by
    rw [sub_mul, mul_assoc, ← zpow_add₀ h2]; simp
  have herr : |(|x| - (m : ℚ) * 2 ^ (-k))| ≤ 2 ^ (-k) / 2 := by
    rw [hmag, abs_mul, abs_of_pos hpnk]
    calc |(|x| * 2 ^ k - (m : ℚ))| * 2 ^ (-k) ≤ 1 / 2 * 2 ^ (-k) :=
          mul_le_mul_of_nonneg_right hmerr hpnk.le
      _ = 2 ^ (-k) / 2 := by ring
  rw [hround]
  by_cases hneg : x < 0
  · simp only [hneg, if_true]
    rw [abs_of_neg hneg] at herr
    have : x - -1 * ((m : ℚ) * 2 ^ (-k)) = -(-x - (m : ℚ) * 2 ^ (-k)) := by ring
    rw [this, abs_neg]
    exact herr
  · simp only [hneg, if_false]
    rw [abs_of_nonneg (not_lt.mp hneg)] at herr
    rw [one_mul]
    exact herr

/-! ### Lemmas on `findFirstOf` and the loop -/

theorem findFirstOf_of_split (content : Str) (ch : Char) (pos : Nat) (t rest : Str)
    (hsplit : content.drop pos = t ++ ch :: rest) (ht : ch ∉ t) :
    findFirstOf content ch pos = some (pos + t.length) := by
  have hidx : (content.drop pos).indexOf ch = t.length := by
    rw [hsplit, List.indexOf_append_of_not_mem ht]
    simp
  unfold findFirstOf
  simp only [hidx]
  rw [if_pos]
  rw [hsplit]
  simp

theorem findFirstOf_of_not_mem (content : Str) (ch : Char) (pos : Nat)
    (h : ch ∉ content.drop pos) : findFirstOf content ch pos = none := by
  unfold findFirstOf
  have : ¬ (content.drop pos).indexOf ch < (content.drop pos).length := by
    rw [List.indexOf_lt_length]
    exact h
  simp only [this, if_false]

theorem indexOf_le_of_getElem? (ch : Char) :
    ∀ (l : Str) (k : Nat), l[k]? = some ch → l.indexOf ch ≤ k := by
  intro l
  induction l with
  | nil => intro k h; simp at h
  | cons a l ih =>
    intro k h
    by_cases hac : a = ch
    · rw [List.indexOf_cons_eq _ hac]; exact Nat.zero_le _
    · rw [List.indexOf_cons_ne _ hac]
      cases k with
      | zero => simp at h; exact absurd h hac
      | succ k =>
        simp only [List.getElem?_cons_succ] at h
        exact Nat.succ_le_succ (ih k h)

theorem findFirstOf_some (content : Str) (ch : Char) (pos d : Nat)
    (h : findFirstOf content ch pos = some d) :
    pos ≤ d ∧ d < content.length ∧ content[d]? = some ch := by
  unfold findFirstOf at h
  simp only at h
  split at h
  · rename_i hlt
    injection h with h
    subst h
    have hlen : (content.drop pos).length = content.length - pos := List.length_drop _ _
    have hget := List.getElem_indexOf hlt
    refine ⟨Nat.le_add_right _ _, by omega, ?_⟩
    rw [List.getElem_drop] at hget
    rw [List.getElem?_eq_getElem (by omega)]
    exact congrArg some hget
  · cases h

theorem findFirstOf_le (content : Str) (ch : Char) (pos i : Nat)
    (hi : content[i]? = some ch) (hpos : pos ≤ i) :
    ∃ d, findFirstOf content ch pos = some d ∧ d ≤ i := by
  have hk : (content.drop pos)[i - pos]? = some ch := by
    rw [List.getElem?_drop]
    rwa [Nat.add_sub_cancel' hpos]
  have hle := indexOf_le_of_getElem? ch _ _ hk
  have hlt : i - pos < (content.drop pos).length := by
    by_contra hcon
    rw [List.getElem?_eq_none (Nat.le_of_not_lt hcon)] at hk
    cases hk
  refine ⟨pos + (content.drop pos).indexOf ch, ?_, by omega⟩
  unfold findFirstOf
  simp only
  rw [if_pos (lt_of_le_of_lt hle hlt)]

theorem parseLoop_text (feature : Feature) (content : Str) (o c : Char)
    (fuel pos : Nat) (out : Str) (h : o ∉ content.drop pos) :
    parseLoop feature content o c (fuel + 1) pos out = some (out ++ content.drop pos) := by
  simp only [parseLoop, findFirstOf_of_not_mem content o pos h, substrFrom]

theorem parseLoop_segment (feature : Feature) (content : Str) (o c : Char)
    (fuel pos : Nat) (out t a rest : Str)
    (hsplit : content.drop pos = t ++ o :: (a ++ c :: rest))
    (ht : o ∉ t) (ha : c ∉ a) :
    parseLoop feature content o c (fuel + 1) pos out
      = parseLoop feature content o c fuel (pos + t.length + 1 + a.length + 1)
          (out ++ t ++ feature.getAttr a) ∧
    content.drop (pos + t.length + 1 + a.length + 1) = rest := by
  have h1 := findFirstOf_of_split content o pos t _ hsplit ht
  have hd1 : content.drop (pos + t.length + 1) = a ++ c :: rest := by
    have : content.drop (pos + t.length + 1) = (content.drop pos).drop (t.length + 1) := by
      rw [List.drop_drop, Nat.add_assoc]
    rw [this, hsplit, List.drop_append_eq_append_drop]
    simp
  have h2 := findFirstOf_of_split content c (pos + t.length + 1) a _ hd1 ha
  have hd2 : content.drop (pos + t.length + 1 + a.length + 1) = rest := by
    have : content.drop (pos + t.length + 1 + a.length + 1)
        = (content.drop (pos + t.length + 1)).drop (a.length + 1) := by
      rw [List.drop_drop, Nat.add_assoc]
    rw [this, hd1, List.drop_append_eq_append_drop]
    simp
  refine ⟨?_, hd2⟩
  have hs1 : substr content pos (pos + t.length - pos) = t := by
    simp [substr, hsplit]
  have hs2 : substr content (pos + t.length + 1) (pos + t.length + 1 + a.length - (pos + t.length + 1)) = a := by
    simp [substr, hd1]
  simp only [parseLoop, h1, h2, hs1, hs2]

theorem templateText_length (o c : Char) :
    ∀ (segs : List (Str × Str)) (t0 : Str), segs.length ≤ (templateText o c t0 segs).length := by
  intro segs
  induction segs with
  | nil => intro t0; simp
  | cons p segs ih =>
    intro t0
    obtain ⟨a, t⟩ := p
    have := ih t
    simp only [templateText, List.length_append, List.length_cons]
    omega

theorem parseLoop_template (feature : Feature) (content : Str) (o c : Char) :
    ∀ (segs : List (Str × Str)) (t0 : Str) (fuel pos : Nat) (out : Str),
      content.drop pos = templateText o c t0 segs →
      o ∉ t0 → (∀ p ∈ segs, c ∉ p.1 ∧ o ∉ p.2) → segs.length < fuel →
      parseLoop feature content o c fuel pos out
        = some (out ++ substitutedText feature t0 segs) := by
  intro segs
  induction segs with
  | nil =>
    intro t0 fuel pos out hdrop ht0 _ hfuel
    obtain ⟨f, rfl⟩ : ∃ f, fuel = f + 1 := ⟨fuel - 1, by simp at hfuel; omega⟩
    simp only [templateText] at hdrop
    rw [parseLoop_text feature content o c f pos out (by rw [hdrop]; exact ht0), hdrop]
    rfl
  | cons p segs ih =>
    intro t0 fuel pos out hdrop ht0 hsegs hfuel
    obtain ⟨a, t⟩ := p
    obtain ⟨f, rfl⟩ : ∃ f, fuel = f + 1 := ⟨fuel - 1, by simp at hfuel; omega⟩
    have hat := hsegs (a, t) (List.mem_cons_self _ _)
    obtain ⟨hstep, hrest⟩ := parseLoop_segment feature content o c f pos out t0 a
      (templateText o c t segs) hdrop ht0 hat.1
    rw [hstep, ih t f _ _ hrest hat.2 (fun q hq => hsegs q (List.mem_cons_of_mem _ hq))
      (by simp at hfuel; omega)]
    simp [substitutedText, List.append_assoc]

theorem drop_suffix_of_le (content : Str) {j k : Nat} (h : j ≤ k) :
    content.drop k <:+ content.drop j := by
  obtain ⟨e, rfl⟩ := Nat.exists_eq_add_of_le h
  rw [← List.drop_drop]
  exact List.drop_suffix _ _

theorem parseLoop_unterminated (feature : Feature) (content : Str) (o c : Char) (i : Nat)
    (hi : content[i]? = some o) (hc : c ∉ content.drop (i + 1)) :
    ∀ (fuel pos : Nat) (out : Str), pos ≤ i → content.length + 1 ≤ fuel + pos →
      ∃ r, parseLoop feature content o c fuel pos out = some r ∧ content.drop (i + 1) <:+ r := by
  have hilt : i < content.length := by
    by_contra hcon
    rw [List.getElem?_eq_none (Nat.le_of_not_lt hcon)] at hi
    cases hi
  intro fuel
  induction fuel with
  | zero => intro pos out hpos hfuel; omega
  | succ fuel ih =>
    intro pos out hpos hfuel
    obtain ⟨d, hd, hdi⟩ := findFirstOf_le content o pos i hi hpos
    obtain ⟨hposd, _, _⟩ := findFirstOf_some content o pos d hd
    cases hfc : findFirstOf content c (d + 1) with
    | none =>
      have hres : parseLoop feature content o c (fuel + 1) pos out
          = some (out ++ substr content pos (d - pos) ++ content.drop (d + 1)) := by
        simp only [parseLoop, hd, hfc, substrFrom]
      refine ⟨_, hres, ?_⟩
      exact (drop_suffix_of_le content (by omega)).trans (List.suffix_append _ _)
    | some d1 =>
      obtain ⟨hd1lo, hd1lt, hd1c⟩ := findFirstOf_some content c (d + 1) d1 hfc
      have hd1i : d1 ≤ i := by
        by_contra hcon
        apply hc
        have hmem : content[d1]? = some c := hd1c
        rw [List.mem_iff_getElem?]
        refine ⟨d1 - (i + 1), ?_⟩
        rw [List.getElem?_drop]
        rwa [Nat.add_sub_cancel' (by omega)]
      have hstep : parseLoop feature content o c (fuel + 1) pos out
          = parseLoop feature content o c fuel (d1 + 1)
              (out ++ substr content pos (d - pos)
                ++ feature.getAttr (substr content (d + 1) (d1 - (d + 1)))) := by
        simp only [parseLoop, hd, hfc]
      rw [hstep]
      rcases Nat.lt_or_eq_of_le hd1i with hlt | heq
      · exact ih (d1 + 1) _ (by omega) (by omega)
      · subst heq
        have hoc : o = c := by
          rw [hi] at hd1c
          exact Option.some.inj hd1c
        obtain ⟨f, rfl⟩ : ∃ f, fuel = f + 1 := ⟨fuel - 1, by omega⟩
        rw [parseLoop_text feature content o c f (d1 + 1) _ (by rw [hoc]; exact hc)]
        exact ⟨_, rfl, List.suffix_append _ _⟩

theorem parseLoop_total (feature : Feature) (content : Str) (o c : Char) :
    ∀ (fuel pos : Nat) (out : Str), 0 < fuel → content.length + 1 ≤ fuel + pos →
      ∃ r, parseLoop feature content o c fuel pos out = some r := by
  intro fuel
  induction fuel with
  | zero => intro pos out h; omega
  | succ fuel ih =>
    intro pos out _ hfuel
    cases hfo : findFirstOf content o pos with
    | none => exact ⟨out ++ substrFrom content pos, by simp only [parseLoop, hfo]⟩
    | some d =>
      obtain ⟨hposd, _, _⟩ := findFirstOf_some content o pos d hfo
      cases hfc : findFirstOf content c (d + 1) with
      | none =>
        exact ⟨out ++ substr content pos (d - pos) ++ substrFrom content (d + 1),
          by simp only [parseLoop, hfo, hfc]⟩
      | some d1 =>
        obtain ⟨hd1lo, hd1lt, _⟩ := findFirstOf_some content c (d + 1) d1 hfc
        obtain ⟨r, hr⟩ := ih (d1 + 1)
          (out ++ substr content pos (d - pos)
            ++ feature.getAttr (substr content (d + 1) (d1 - (d + 1)))) (by omega) (by omega)
        exact ⟨r, by simp only [parseLoop, hfo, hfc]; exact hr⟩

/-- `parseAttributes` returns on every input: the fuel of its loop is enough. -/
theorem parseAttributes_isSome (feature : Feature) (content delim : Str) :
    ∃ r, parseAttributes feature content delim = some r := by
  unfold parseAttributes
  split
  · exact parseLoop_total feature content _ _ _ 0 [] (Nat.succ_pos _) (Nat.le_refl _)
  · exact ⟨_, rfl⟩

/-! ### Lemmas on the loop of `operator()` -/

theorem labelStep_cases (env : LabelCollaborators) (symbol : TextSymbol) (st : LabelState)
    (f : Feature) :
    (labelStep env false symbol true st f = st ∧
        (f.geometry = none ∨ resolveText symbol f = [] ∨ resolveText symbol f ∈ st.labelNames)) ∨
    (∃ g, f.geometry = some g ∧ resolveText symbol f ≠ [] ∧
        resolveText symbol f ∉ st.labelNames ∧
        labelStep env false symbol true st f
          = st.add true (makeLabel env symbol (resolveText symbol f) g)) := by
  unfold labelStep
  cases hg : f.geometry with
  | none => exact Or.inl ⟨rfl, Or.inl rfl⟩
  | some g =>
    by_cases ht : resolveText symbol f = []
    · left; simp [ht]
    · by_cases hm : resolveText symbol f ∈ st.labelNames
      · left; simp [ht, hm]
      · right; exact ⟨g, rfl, ht, hm, by simp [ht, hm]⟩

theorem makeLabel_text (env : LabelCollaborators) (symbol : TextSymbol) (text : Str)
    (g : Geometry) : (makeLabel env symbol text g).text = text := rfl

theorem eligibleTexts_cons (symbol : TextSymbol) (f : Feature) (fs : List Feature) :
    eligibleTexts symbol (f :: fs)
      = (if f.geometry.isSome ∧ resolveText symbol f ≠ [] then [resolveText symbol f] else [])
        ++ eligibleTexts symbol fs := by
  unfold eligibleTexts
  by_cases h : f.geometry.isSome ∧ resolveText symbol f ≠ []
  · simp [List.filterMap_cons, h]
  · simp [List.filterMap_cons, h]

/-- What the loop of `operator()` adds, with duplicate removal on and clutter
hiding off, when started in a state whose name set is the set of texts drawn. -/
theorem labelLoop_spec (env : LabelCollaborators) (symbol : TextSymbol) :
    ∀ (fs : List Feature) (st : LabelState),
      (∀ t, t ∈ st.labelNames ↔ t ∈ st.result.map Label.text) →
      (st.result.map Label.text).Nodup →
      ∃ new, (fs.foldl (labelStep env false symbol true) st).result = st.result ++ new ∧
        ((st.result ++ new).map Label.text).Nodup ∧
        (new.map Label.text).Sublist (eligibleTexts symbol fs) ∧
        new.map Label.text = (firstOccurrences (eligibleTexts symbol fs)).filter
          (fun u => decide (u ∉ st.labelNames)) ∧
        (∀ t, t ∈ (st.result ++ new).map Label.text ↔
          t ∈ st.labelNames ∨ t ∈ eligibleTexts symbol fs) ∧
        (∀ l ∈ new, l.text ∉ st.labelNames ∧
          ∃ pre f post g, fs = pre ++ f :: post ∧ f.geometry = some g ∧
            resolveText symbol f = l.text ∧ l = makeLabel env symbol l.text g ∧
            ∀ f' ∈ pre, ¬ (f'.geometry.isSome ∧ resolveText symbol f' = l.text)) := by
  intro fs
  induction fs with
  | nil =>
    intro st hinv hnd
    refine ⟨[], by simp, by simpa using hnd, by simp [eligibleTexts],
      by simp [eligibleTexts, firstOccurrences], ?_, by simp⟩
    intro t
    simp [eligibleTexts, hinv t]
  | cons f fs ih =>
    intro st hinv hnd
    rw [List.foldl_cons]
    rcases labelStep_cases env symbol st f with ⟨hstep, hwhy⟩ | ⟨g, hg, hne, hnm, hstep⟩
    · -- the feature gives no label
      rw [hstep]
      obtain ⟨new, hres, hnd', hsub, hord, hmem, hfirst⟩ := ih st hinv hnd
      refine ⟨new, hres, hnd', ?_, ?_, ?_, ?_⟩
      · rw [eligibleTexts_cons]
        exact hsub.trans (List.sublist_append_right _ _)
      · rw [hord, eligibleTexts_cons]
        split
        · rename_i hc
          have hin : resolveText symbol f ∈ st.labelNames := by
            rcases hwhy with hw | hw | hw
            · rw [hw] at hc; simp at hc
            · exact absurd hw hc.2
            · exact hw
          simp only [List.singleton_append, firstOccurrences, List.filter_cons, hin,
            not_true_eq_false, decide_False, Bool.false_eq_true, if_false, List.filter_filter]
          apply List.filter_congr
          intro u _
          by_cases hu : u ∈ st.labelNames
          · simp [hu]
          · have : u ≠ resolveText symbol f := fun h => hu (h ▸ hin)
            simp [hu, this]
        · simp
      · intro t
        rw [hmem t, eligibleTexts_cons]
        constructor
        · rintro (h | h)
          · exact Or.inl h
          · exact Or.inr (List.mem_append_right _ h)
        · rintro (h | h)
          · exact Or.inl h
          · rcases List.mem_append.mp h with h | h
            · split at h
              · rename_i hc
                simp only [List.mem_singleton] at h
                subst h
                rcases hwhy with hw | hw | hw
                · rw [hw] at hc; simp at hc
                · exact absurd hw hc.2
                · exact Or.inl hw
              · simp at h
            · exact Or.inr h
      · intro l hl
        obtain ⟨hnot, pre, f1, post, g1, hsplit, hg1, hres1, hmk, hpre⟩ := hfirst l hl
        refine ⟨hnot, f :: pre, f1, post, g1, by rw [hsplit]; rfl, hg1, hres1, hmk, ?_⟩
        intro f' hf'
        rcases List.mem_cons.mp hf' with rfl | hf'
        · rintro ⟨hgs, htx⟩
          rcases hwhy with hw | hw | hw
          · rw [hw] at hgs; simp at hgs
          · have : l.text ∈ (st.result ++ new).map Label.text :=
              List.mem_map_of_mem _ (List.mem_append_right _ hl)
            -- an empty text is never drawn before, and `l` is new
            rw [hw] at htx
            have hel := (hmem l.text).mp this
            rcases hel with hel | hel
            · exact hnot hel
            · unfold eligibleTexts at hel
              simp only [List.mem_filterMap] at hel
              obtain ⟨f2, _, hf2⟩ := hel
              split at hf2
              · rename_i hc
                injection hf2 with hf2
                exact hc.2 (hf2.trans htx.symm)
              · cases hf2
          · rw [htx] at hw; exact hnot hw
        · exact hpre f' hf'
    · -- the feature gives a label
      rw [hstep]
      set t := makeLabel env symbol (resolveText symbol f) g with ht
      have htext : t.text = resolveText symbol f := rfl
      have hinv1 : ∀ u, u ∈ (st.add true t).labelNames ↔ u ∈ (st.add true t).result.map Label.text := by
        intro u
        simp only [LabelState.add, if_true, htext, if_neg hnm, List.mem_cons, List.map_append,
          List.map_cons, List.map_nil, List.mem_append, List.mem_singleton, hinv u]
        tauto
      have hnd1 : ((st.add true t).result.map Label.text).Nodup := by
        simp only [LabelState.add, List.map_append, List.map_cons, List.map_nil]
        rw [List.nodup_append]
        refine ⟨hnd, List.nodup_singleton _, ?_⟩
        intro u hu hu'
        simp only [List.mem_singleton] at hu'
        subst hu'
        exact hnm ((hinv _).mpr (htext ▸ hu))
      obtain ⟨new, hres, hnd', hsub, hord, hmem, hfirst⟩ := ih (st.add true t) hinv1 hnd1
      have hadd : (st.add true t).result = st.result ++ [t] := rfl
      have hnames : ∀ u, u ∈ (st.add true t).labelNames ↔ u = resolveText symbol f ∨ u ∈ st.labelNames := by
        intro u
        simp only [LabelState.add, if_true, htext, if_neg hnm, List.mem_cons]
      have hel : eligibleTexts symbol (f :: fs) = resolveText symbol f :: eligibleTexts symbol fs := by
        rw [eligibleTexts_cons, if_pos ⟨by rw [hg]; rfl, hne⟩]; rfl
      rw [hadd, List.append_assoc] at hres hnd' hmem
      refine ⟨[t] ++ new, hres, hnd', ?_, ?_, ?_, ?_⟩
      · rw [hel]
        simp only [List.singleton_append, List.map_cons, htext]
        exact hsub.cons₂ _
      · rw [hel]
        simp only [List.singleton_append, List.map_cons, htext, firstOccurrences,
          List.filter_cons, hnm, not_false_eq_true, decide_True, if_true, List.filter_filter,
          hord]
        congr 1
        apply List.filter_congr
        intro u _
        by_cases hu : u ∈ st.labelNames
        · simp [hu, (hnames u).mpr (Or.inr hu)]
        · by_cases hut : u = resolveText symbol f
          · simp [hut, (hnames (resolveText symbol f)).mpr (Or.inl rfl)]
          · have : u ∉ (st.add true t).labelNames := fun h =>
              ((hnames u).mp h).elim hut hu
            simp [hu, hut, this]
      · intro u
        rw [hmem u, hnames u, hel, List.mem_cons]
        tauto
      · intro l hl
        rcases List.mem_append.mp hl with hl | hl
        · simp only [List.mem_singleton] at hl
          subst hl
          refine ⟨by rw [htext]; exact hnm, [], f, fs, g, rfl, hg, htext.symm, rfl, by simp⟩
        · obtain ⟨hnot, pre, f1, post, g1, hsplit, hg1, hres1, hmk, hpre⟩ := hfirst l hl
          have hnot' := fun h => hnot ((hnames _).mpr h)
          refine ⟨fun h => hnot' (Or.inr h), f :: pre, f1, post, g1, by rw [hsplit]; rfl,
            hg1, hres1, hmk, ?_⟩
          intro f' hf'
          rcases List.mem_cons.mp hf' with rfl | hf'
          · rintro ⟨_, htx⟩
            exact hnot' (Or.inl htx.symm)
          · exact hpre f' hf'

/-! ## Results on `parseAttributes` -/

/-- Claim C1: for a delimiter string `o c ...` of length at least two and a content
`t0 o a1 c t1 ... o an c tn` in which no `ti` contains `o` and no `ai` contains `c`,
`parseAttributes` returns `t0 ++ getAttr a1 ++ t1 ++ ... ++ getAttr an ++ tn`. -/
theorem parseAttributes_substitutes (feature : Feature) (o c : Char) (drest t0 : Str)
    (segs : List (Str × Str)) (ht0 : o ∉ t0) (hsegs : ∀ p ∈ segs, c ∉ p.1 ∧ o ∉ p.2) :
    parseAttributes feature (templateText o c t0 segs) (o :: c :: drest)
      = some (substitutedText feature t0 segs) := by
  have h := parseLoop_template feature (templateText o c t0 segs) o c segs t0
    ((templateText o c t0 segs).length + 1) 0 [] rfl ht0 hsegs
    (Nat.lt_succ_of_le (templateText_length o c segs t0))
  simpa [parseAttributes] using h

/-- Witness of C1: `"City [name], [state]"` on a feature with name `Springfield`
and state `Oregon`, delimiters `"[]"`, gives `"City Springfield, Oregon"`. -/
theorem parseAttributes_substitutes_witness :
    parseAttributes
        (featureOfAttrs [("name".toList, "Springfield".toList),
          ("state".toList, "Oregon".toList)] none)
        "City [name], [state]".toList "[]".toList
      = some "City Springfield, Oregon".toList :=
  parseAttributes_substitutes _ '[' ']' [] "City ".toList
    [("name".toList, ", ".toList), ("state".toList, [])] (by decide) (by decide)

/-- Counterexample to C2 as stated: in `"City [name"` the `[` at index 5 is never
closed, the result is `"City name"`, and the text from the `[` on, `"[name"`,
is not at the end of it. -/
theorem parseAttributes_unterminated_drops_opener :
    "City [name".toList[5]? = some '[' ∧
    ']' ∉ "City [name".toList.drop 6 ∧
    parseAttributes (featureOfAttrs [] none) "City [name".toList "[]".toList
      = some "City name".toList ∧
    ¬ ("City [name".toList.drop 5 <:+ "City name".toList) := by
  refine ⟨by decide, by decide, by decide, by decide⟩

/-- Claim C2, amended: when an opening delimiter character of the content is not
followed anywhere later by the closing delimiter character, `parseAttributes`
returns a result, and the text after that opening delimiter (the delimiter itself
excluded) up to the end of the content is the end of the result. -/
theorem parseAttributes_unterminated (feature : Feature) (content : Str) (o c : Char)
    (drest : Str) (i : Nat) (hi : content[i]? = some o) (hc : c ∉ content.drop (i + 1)) :
    ∃ r, parseAttributes feature content (o :: c :: drest) = some r ∧
      content.drop (i + 1) <:+ r := by
  simpa [parseAttributes] using
    parseLoop_unterminated feature content o c i hi hc (content.length + 1) 0 []
      (Nat.zero_le _) (Nat.le_refl _)

/-- Witness of the amended C2 on `"City [name"` with delimiters `"[]"`. -/
theorem parseAttributes_unterminated_witness :
    ∃ r, parseAttributes (featureOfAttrs [] none) "City [name".toList "[]".toList = some r ∧
      "name".toList <:+ r :=
  parseAttributes_unterminated (featureOfAttrs [] none) "City [name".toList '[' ']' [] 5
    (by decide) (by decide)

/-! ## Results on `BuildTextOperator::operator()` -/

/-- Claim C10: with `removeDuplicateLabels = true` and clutter hiding off,
`operator()` returns labels with pairwise distinct texts, as many as there are
distinct non-empty resolved texts among the features that have a geometry; the
texts of the labels are those distinct texts in the order of their first
occurrence among the features; and each label is built from the first feature with
a geometry that resolves to its text: its position and rotation are the ones
computed from the geometry of that feature. -/
theorem operator_removes_duplicates (env : LabelCollaborators) (features : List Feature)
    (symbol : TextSymbol) (hdup : symbol.removeDuplicateLabels = some true) :
    ∃ labels, BuildTextOperator.operator env false features (some symbol) = some labels ∧
      (labels.map Label.text).Nodup ∧
      labels.length = (eligibleTexts symbol features).dedup.length ∧
      labels.map Label.text = firstOccurrences (eligibleTexts symbol features) ∧
      ∀ l ∈ labels, ∃ pre f post g, features = pre ++ f :: post ∧ f.geometry = some g ∧
        resolveText symbol f = l.text ∧
        l.position = (env.place symbol (symbol.rotateToScreen.getD false) g).1 ∧
        l.rotation = (env.place symbol (symbol.rotateToScreen.getD false) g).2 ∧
        l = makeLabel env symbol l.text g ∧
        ∀ f' ∈ pre, ¬ (f'.geometry.isSome ∧ resolveText symbol f' = l.text) := by
  obtain ⟨new, hres, hnd, _, hord, hmem, hfirst⟩ :=
    labelLoop_spec env symbol features { labelNames := [], result := [] } (by simp) (by simp)
  simp only [List.nil_append, List.not_mem_nil, false_or] at hres hnd hmem
  refine ⟨new, by simp [BuildTextOperator.operator, hdup, hres], hnd, ?_, ?_, ?_⟩
  · have h1 : (new.map Label.text).toFinset = (eligibleTexts symbol features).toFinset := by
      ext t
      simp only [List.mem_toFinset]
      exact hmem t
    rw [← List.card_toFinset, ← h1, List.toFinset_card_of_nodup hnd, List.length_map]
  · rw [hord]
    simp
  · intro l hl
    obtain ⟨_, pre, f, post, g, hsplit, hg, htx, hmk, hpre⟩ := hfirst l hl
    exact ⟨pre, f, post, g, hsplit, hg, htx, by rw [hmk]; rfl, by rw [hmk]; rfl, hmk, hpre⟩

/-- Witness of C10: two features that both resolve to `Lake` give one label, with
the text `Lake`. -/
theorem operator_removes_duplicates_witness :
    ∃ labels, BuildTextOperator.operator flatLabels false [lakeFeature, lakeFeature]
        (some nameSymbol) = some labels ∧
      labels.length = 1 ∧ labels.map Label.text = ["Lake".toList] := by
  obtain ⟨labels, hres, _, hlen, hord, _⟩ :=
    operator_removes_duplicates flatLabels [lakeFeature, lakeFeature] nameSymbol rfl
  have hcount : (eligibleTexts nameSymbol [lakeFeature, lakeFeature]).dedup.length = 1 := by
    decide
  have hfirst : firstOccurrences (eligibleTexts nameSymbol [lakeFeature, lakeFeature])
      = ["Lake".toList] := by decide
  exact ⟨labels, hres, hlen.trans hcount, hord.trans hfirst⟩

/-- The labels of `Lake, Pond, Lake` come in the order `Lake, Pond`. -/
theorem operator_first_occurrence_order :
    (BuildTextOperator.operator flatLabels false [lakeFeature, pondFeature, lakeFeature]
        (some nameSymbol)).map (fun labels => labels.map Label.text)
      = some ["Lake".toList, "Pond".toList] := by
  decide

/-! ## Results on `TerrainCuller::addDrawCommand` -/

theorem hidden_of_invisible (pass : RenderingPass)
    (h : ∃ imageLayer, pass.imageLayer = some imageLayer ∧ imageLayer.visible = false) :
    pass.hidden = true := by
  obtain ⟨imageLayer, h1, h2⟩ := h
  simp [RenderingPass.hidden, h1, h2]

theorem not_hidden_of_visible (pass : RenderingPass)
    (h : pass.imageLayer = none ∨
      ∃ imageLayer, pass.imageLayer = some imageLayer ∧ imageLayer.visible = true) :
    pass.hidden = false := by
  rcases h with h | ⟨imageLayer, h1, h2⟩
  · simp [RenderingPass.hidden, h]
  · simp [RenderingPass.hidden, h1, h2]

/-- What `addDrawCommand` does for a pass that is not hidden when the layer has a
batch: the command it builds is appended to that batch and returned. -/
theorem addDrawCommand_of_batch (env : CullCollaborators) (s : TerrainCuller) (uid : UID)
    (pass : RenderingPass) (tileNode : TileNode) (batch : LayerDrawable)
    (hvis : pass.hidden = false) (hbatch : s.terrain.layer uid = some batch) :
    ∃ cmd, s.addDrawCommand env uid pass tileNode
        = (some cmd, { s with terrain := s.terrain.setLayer uid { tiles := batch.tiles ++ [cmd] } }) ∧
      cmd.pass = some pass ∧ cmd.key = tileNode.key ∧
      cmd.modelViewMatrix = s.getModelViewMatrix env ∧
      cmd.drawPatch = env.newCommand.drawPatch ∧
      cmd.elevTexelCoeff =
        (match tileNode.elevationRaster with
         | some elevRaster =>
           (toFloat (toDouble (toDouble (toFloat (elevRaster.s : ℚ)
                - toDouble (2 * toFloat (if s.context.useTextureBorder then 3 / 2 else 1 / 2)))
              / toFloat (elevRaster.s : ℚ))),
            toFloat (toFloat (if s.context.useTextureBorder then 3 / 2 else 1 / 2)
              / toFloat (elevRaster.s : ℚ)))
         | none => env.newCommand.elevTexelCoeff) := by
  unfold TerrainCuller.addDrawCommand
  simp only [hvis, hbatch]
  cases tileNode.elevationRaster with
  | none => exact ⟨_, rfl, rfl, rfl, rfl, rfl, rfl⟩
  | some elevRaster => exact ⟨_, rfl, rfl, rfl, rfl, rfl, rfl⟩

/-- What `addDrawCommand` does for a pass that is not hidden when the layer has
no batch: nothing but the count of an orphaned pass. -/
theorem addDrawCommand_of_no_batch (env : CullCollaborators) (s : TerrainCuller) (uid : UID)
    (pass : RenderingPass) (tileNode : TileNode)
    (hvis : pass.hidden = false) (hbatch : s.terrain.layer uid = none) :
    s.addDrawCommand env uid pass tileNode
      = (none, { s with orphanedPassesDetected := (s.orphanedPassesDetected + 1) % counterModulus }) := by
  unfold TerrainCuller.addDrawCommand
  simp only [hvis, hbatch]
  rfl

/-- What `addDrawCommand` does for a hidden pass: nothing. -/
theorem addDrawCommand_of_hidden (env : CullCollaborators) (s : TerrainCuller) (uid : UID)
    (pass : RenderingPass) (tileNode : TileNode) (hvis : pass.hidden = true) :
    s.addDrawCommand env uid pass tileNode = (none, s) := by
  unfold TerrainCuller.addDrawCommand
  simp only [hvis, if_true]

/-- Counterexample to C3 as stated: layer `7` has no batch, yet for a pass whose
image layer is not visible the orphaned-pass counter stays at `0`; and for a
visible pass a counter at `2^32 - 1` goes to `0`, not up by one. -/
theorem addDrawCommand_orphan_not_counted :
    (cullerOf [] [] false 0).terrain.layer 7 = none ∧
    ((cullerOf [] [] false 0).addDrawCommand plainCull 7 (imagePass 7 false)
        (tileOf (renderModelOf []) none)).2.orphanedPassesDetected = 0 ∧
    ((cullerOf [] [] false (2 ^ 32 - 1)).addDrawCommand plainCull 7 emptyPass
        (tileOf (renderModelOf []) none)).2.orphanedPassesDetected = 0 := by
  refine ⟨by decide, by decide, by decide⟩

/-- Claim C3, amended: when no batch exists for `uid`, the pass has no image layer
or a visible one, and the counter is below its maximum `2^32 - 1`,
`addDrawCommand` returns no command, leaves every batch unchanged and increases
the orphaned-pass counter by exactly one. -/
theorem addDrawCommand_orphaned (env : CullCollaborators) (s : TerrainCuller) (uid : UID)
    (pass : RenderingPass) (tileNode : TileNode)
    (hbatch : s.terrain.layer uid = none)
    (hvis : pass.imageLayer = none ∨
      ∃ imageLayer, pass.imageLayer = some imageLayer ∧ imageLayer.visible = true)
    (hmax : s.orphanedPassesDetected < counterModulus - 1) :
    (s.addDrawCommand env uid pass tileNode).1 = none ∧
    (∀ u, (s.addDrawCommand env uid pass tileNode).2.terrain.layer u = s.terrain.layer u) ∧
    (s.addDrawCommand env uid pass tileNode).2.orphanedPassesDetected
      = s.orphanedPassesDetected + 1 := by
  rw [addDrawCommand_of_no_batch env s uid pass tileNode (not_hidden_of_visible pass hvis) hbatch]
  refine ⟨rfl, fun _ => rfl, ?_⟩
  show (s.orphanedPassesDetected + 1) % counterModulus = s.orphanedPassesDetected + 1
  apply Nat.mod_eq_of_lt
  have : 0 < counterModulus := by decide
  omega

/-- Witness of the amended C3: layer `7` has no batch, the default pass has no
image layer, and the counter goes from `0` to `1`. -/
theorem addDrawCommand_orphaned_witness :
    ((cullerOf [] [] false 0).addDrawCommand plainCull 7 emptyPass
        (tileOf (renderModelOf []) none)).1 = none ∧
    (∀ u, ((cullerOf [] [] false 0).addDrawCommand plainCull 7 emptyPass
        (tileOf (renderModelOf []) none)).2.terrain.layer u
      = (cullerOf [] [] false 0).terrain.layer u) ∧
    ((cullerOf [] [] false 0).addDrawCommand plainCull 7 emptyPass
        (tileOf (renderModelOf []) none)).2.orphanedPassesDetected = 0 + 1 :=
  addDrawCommand_orphaned plainCull (cullerOf [] [] false 0) 7 emptyPass
    (tileOf (renderModelOf []) none) (by decide) (Or.inl rfl) (by decide)

/-- Claim C4: for a pass whose image layer is present and not visible,
`addDrawCommand` returns no command and leaves the whole culler state, so every
batch and the orphaned-pass counter, unchanged, whether or not a batch exists for
the uid; hence any number of repeated calls leaves the state unchanged. -/
theorem addDrawCommand_invisible (env : CullCollaborators) (s : TerrainCuller) (uid : UID)
    (pass : RenderingPass) (tileNode : TileNode)
    (hinv : ∃ imageLayer, pass.imageLayer = some imageLayer ∧ imageLayer.visible = false) :
    s.addDrawCommand env uid pass tileNode = (none, s) ∧
    ∀ n : Nat, (fun st : TerrainCuller => (st.addDrawCommand env uid pass tileNode).2)^[n] s = s := by
  have hh := hidden_of_invisible pass hinv
  refine ⟨addDrawCommand_of_hidden env s uid pass tileNode hh, ?_⟩
  intro n
  induction n with
  | zero => rfl
  | succ n ih =>
    rw [Function.iterate_succ_apply, addDrawCommand_of_hidden env s uid pass tileNode hh]
    exact ih

/-- Witness of C4: an invisible image layer `1`, which has a batch. -/
theorem addDrawCommand_invisible_witness :
    (cullerOf [] [] false 0).addDrawCommand plainCull 1 (imagePass 1 false)
        (tileOf (renderModelOf []) none) = (none, cullerOf [] [] false 0) ∧
    ∀ n : Nat, (fun st : TerrainCuller => (st.addDrawCommand plainCull 1 (imagePass 1 false)
        (tileOf (renderModelOf []) none)).2)^[n] (cullerOf [] [] false 0)
      = cullerOf [] [] false 0 :=
  addDrawCommand_invisible plainCull (cullerOf [] [] false 0) 1 (imagePass 1 false)
    (tileOf (renderModelOf []) none) ⟨{ uid := 1, visible := false }, rfl, rfl⟩

/-- Claim C5: when a batch exists for `uid` and the pass has no image layer or a
visible one, `addDrawCommand` returns a command; afterwards the batch of `uid` is
its previous command sequence followed by that one command, the command
references the given pass and carries the tile's key, the batches of all other
layers are unchanged, and the orphaned-pass counter is unchanged. -/
theorem addDrawCommand_appends (env : CullCollaborators) (s : TerrainCuller) (uid : UID)
    (pass : RenderingPass) (tileNode : TileNode) (batch : LayerDrawable)
    (hbatch : s.terrain.layer uid = some batch)
    (hvis : pass.imageLayer = none ∨
      ∃ imageLayer, pass.imageLayer = some imageLayer ∧ imageLayer.visible = true) :
    ∃ cmd, (s.addDrawCommand env uid pass tileNode).1 = some cmd ∧
      (s.addDrawCommand env uid pass tileNode).2.terrain.layer uid
        = some { tiles := batch.tiles ++ [cmd] } ∧
      cmd.pass = some pass ∧ cmd.key = tileNode.key ∧
      (∀ u, u ≠ uid →
        (s.addDrawCommand env uid pass tileNode).2.terrain.layer u = s.terrain.layer u) ∧
      (s.addDrawCommand env uid pass tileNode).2.orphanedPassesDetected
        = s.orphanedPassesDetected := by
  obtain ⟨cmd, hcall, hpass, hkey, _⟩ := addDrawCommand_of_batch env s uid pass tileNode batch
    (not_hidden_of_visible pass hvis) hbatch
  rw [hcall]
  refine ⟨cmd, rfl, ?_, hpass, hkey, ?_, rfl⟩
  · simp [TerrainRenderData.setLayer]
  · intro u hu
    simp [TerrainRenderData.setLayer, hu]

/-- Witness of C5: the visible image pass of layer `1`, which has a batch. -/
theorem addDrawCommand_appends_witness :
    ∃ cmd, ((cullerOf [] [] false 0).addDrawCommand plainCull 1 (imagePass 1 true)
        (tileOf (renderModelOf []) none)).1 = some cmd ∧
      ((cullerOf [] [] false 0).addDrawCommand plainCull 1 (imagePass 1 true)
        (tileOf (renderModelOf []) none)).2.terrain.layer 1
        = some { tiles := [] ++ [cmd] } ∧
      cmd.pass = some (imagePass 1 true) ∧
      cmd.key = (tileOf (renderModelOf []) none).key ∧
      (∀ u, u ≠ 1 →
        ((cullerOf [] [] false 0).addDrawCommand plainCull 1 (imagePass 1 true)
          (tileOf (renderModelOf []) none)).2.terrain.layer u
          = (cullerOf [] [] false 0).terrain.layer u) ∧
      ((cullerOf [] [] false 0).addDrawCommand plainCull 1 (imagePass 1 true)
        (tileOf (renderModelOf []) none)).2.orphanedPassesDetected
        = (cullerOf [] [] false 0).orphanedPassesDetected :=
  addDrawCommand_appends plainCull (cullerOf [] [] false 0) 1 (imagePass 1 true)
    (tileOf (renderModelOf []) none) { tiles := [] } rfl
    (Or.inr ⟨{ uid := 1, visible := true }, rfl, rfl⟩)

/-- Known values of the two roundings: `0.1f`, `0.1`, the `float` nearest to
`2/3`, two ties (to the even neighbour below and above), a negative tie, and a
value that needs no rounding. -/
theorem roundFloat_examples :
    toFloat (1 / 10) = 13421773 / 134217728 ∧
    toDouble (1 / 10) = 3602879701896397 / 36028797018963968 ∧
    toFloat (2 / 3) = 11184811 / 16777216 ∧
    toFloat 16777217 = 16777216 ∧
    toFloat 16777219 = 16777220 ∧
    toFloat (-16777219) = -16777220 ∧
    toFloat (255 / 256) = 255 / 256 := by
  decide!

theorem float_constants :
    toFloat (3 / 2) = 3 / 2 ∧ toDouble (2 * (3 / 2)) = 3 ∧
    toFloat (1 / 2) = 1 / 2 ∧ toDouble (2 * (1 / 2)) = 1 := by
  decide!

theorem float_coefficients_256 :
    toFloat ((256 : ℤ) : ℚ) = 256 ∧
    toFloat (toDouble (toDouble (256 - 3) / 256)) = 253 / 256 ∧
    toFloat (3 / 2 / 256) = 3 / 512 ∧
    toFloat (toDouble (toDouble (256 - 1) / 256)) = 255 / 256 ∧
    toFloat (1 / 2 / 256) = 1 / 512 := by
  decide!

/-- Counterexample to C6 as stated: for a raster of width `3` on a culler without
texture border the command carries the coefficients
`(11184811/16777216, 11184811/67108864)`, the `float` values nearest to `2/3` and
`1/6`, not the exact `((3 - 2 * (1/2)) / 3, (1/2) / 3)`. -/
theorem addDrawCommand_elevTexelCoeff_rounded :
    (((cullerOf [] [] false 0).addDrawCommand plainCull 1 emptyPass
        (tileOf (renderModelOf [emptyPass]) (some { s := 3 }))).1.map
        DrawTileCommand.elevTexelCoeff)
      = some (11184811 / 16777216, 11184811 / 67108864) ∧
    ((11184811 / 16777216, 11184811 / 67108864) : ℚ × ℚ)
      ≠ (((3 : ℚ) - 2 * (1 / 2)) / 3, (1 / 2 : ℚ) / 3) := by
  refine ⟨by decide!, by decide!⟩

/-- Claim C6, amended: when `addDrawCommand` produces a command (the layer has a
batch and the pass is not an invisible image layer), then for a tile with an
elevation raster of width `s`, `0 < s < 2^31`, the command's elevation texel
coefficients are the `float` values that the code computes from
`size = float(s)` and `bias = 3/2` under a texture border, `1/2` otherwise:
the scale is the quotient `(size - 2 * bias) / size` taken in `double` and
narrowed to `float`, the bias is the quotient `bias / size` taken in `float`,
every operation rounding to nearest, ties to even; for `s = 256` they are exactly
`(255/256, 1/512)` without border and `(253/256, 3/512)` with border; and for a
tile with no elevation raster they are those of a default-constructed command. -/
theorem addDrawCommand_elevTexelCoeff (env : CullCollaborators) (s : TerrainCuller) (uid : UID)
    (pass : RenderingPass) (tileNode : TileNode) (batch : LayerDrawable)
    (hbatch : s.terrain.layer uid = some batch)
    (hvis : pass.imageLayer = none ∨
      ∃ imageLayer, pass.imageLayer = some imageLayer ∧ imageLayer.visible = true) :
    ∃ cmd, (s.addDrawCommand env uid pass tileNode).1 = some cmd ∧
      (∀ elevRaster, tileNode.elevationRaster = some elevRaster →
        0 < elevRaster.s → elevRaster.s < 2 ^ 31 →
        (s.context.useTextureBorder = true →
          cmd.elevTexelCoeff =
            (toFloat (toDouble (toDouble (toFloat (elevRaster.s : ℚ) - 3)
                / toFloat (elevRaster.s : ℚ))),
             toFloat (3 / 2 / toFloat (elevRaster.s : ℚ)))) ∧
        (s.context.useTextureBorder = false →
          cmd.elevTexelCoeff =
            (toFloat (toDouble (toDouble (toFloat (elevRaster.s : ℚ) - 1)
                / toFloat (elevRaster.s : ℚ))),
             toFloat (1 / 2 / toFloat (elevRaster.s : ℚ))))) ∧
      (∀ elevRaster, tileNode.elevationRaster = some elevRaster → elevRaster.s = 256 →
        (s.context.useTextureBorder = true → cmd.elevTexelCoeff = (253 / 256, 3 / 512)) ∧
        (s.context.useTextureBorder = false → cmd.elevTexelCoeff = (255 / 256, 1 / 512))) ∧
      (tileNode.elevationRaster = none → cmd.elevTexelCoeff = env.newCommand.elevTexelCoeff) := by
  obtain ⟨cmd, hcall, _, _, _, _, hcoeff⟩ := addDrawCommand_of_batch env s uid pass tileNode batch
    (not_hidden_of_visible pass hvis) hbatch
  obtain ⟨hc1, hc2, hc3, hc4⟩ := float_constants
  obtain ⟨hs256, h253, h3, h255, h1⟩ := float_coefficients_256
  rw [hcall]
  refine ⟨cmd, rfl, ?_, ?_, ?_⟩
  · intro elevRaster hr _ _
    rw [hr] at hcoeff
    constructor
    · intro hb
      rw [hcoeff]
      simp only [hb, if_true, hc1, hc2]
    · intro hb
      rw [hcoeff]
      simp only [hb, Bool.false_eq_true, if_false, hc3, hc4]
  · intro elevRaster hr hs
    rw [hr] at hcoeff
    constructor
    · intro hb
      rw [hcoeff]
      simp only [hb, if_true, hc1, hc2, hs, hs256, h253, h3]
    · intro hb
      rw [hcoeff]
      simp only [hb, Bool.false_eq_true, if_false, hc3, hc4, hs, hs256, h255, h1]
  · intro hr
    rw [hr] at hcoeff
    exact hcoeff

/-- Witness of the amended C6: a raster of width `256` on a culler without texture
border gives the coefficients `(255/256, 1/512)`. -/
theorem addDrawCommand_elevTexelCoeff_witness :
    ∃ cmd, ((cullerOf [] [] false 0).addDrawCommand plainCull 1 emptyPass
        (tileOf (renderModelOf [emptyPass]) (some { s := 256 }))).1 = some cmd ∧
      cmd.elevTexelCoeff = (255 / 256, 1 / 512) := by
  obtain ⟨cmd, h1, _, h256, _⟩ := addDrawCommand_elevTexelCoeff plainCull
    (cullerOf [] [] false 0) 1 emptyPass
    (tileOf (renderModelOf [emptyPass]) (some { s := 256 })) { tiles := [] } rfl (Or.inl rfl)
  exact ⟨cmd, h1, (h256 { s := 256 } rfl rfl).2 rfl⟩

/-! ### Lemmas on the loops of `TerrainCuller::apply` -/

theorem addDrawCommand_frame (env : CullCollaborators) (s : TerrainCuller) (uid : UID)
    (pass : RenderingPass) (tileNode : TileNode) :
    (s.addDrawCommand env uid pass tileNode).2.terrain.tileLayers = s.terrain.tileLayers ∧
    (s.addDrawCommand env uid pass tileNode).2.terrain.patchLayers = s.terrain.patchLayers ∧
    (s.addDrawCommand env uid pass tileNode).2.modelViewStack = s.modelViewStack ∧
    (s.addDrawCommand env uid pass tileNode).2.context = s.context := by
  cases hh : pass.hidden with
  | true => rw [addDrawCommand_of_hidden env s uid pass tileNode hh]; exact ⟨rfl, rfl, rfl, rfl⟩
  | false =>
    cases hl : s.terrain.layer uid with
    | none =>
      rw [addDrawCommand_of_no_batch env s uid pass tileNode hh hl]; exact ⟨rfl, rfl, rfl, rfl⟩
    | some batch =>
      obtain ⟨cmd, hcall, _⟩ := addDrawCommand_of_batch env s uid pass tileNode batch hh hl
      rw [hcall]; exact ⟨rfl, rfl, rfl, rfl⟩

/-- The effect of one call of `addDrawCommand` on the batch of a layer `u`. -/
theorem addDrawCommand_layer (env : CullCollaborators) (s : TerrainCuller) (uid : UID)
    (pass : RenderingPass) (tileNode : TileNode) (u : UID) (batch : LayerDrawable)
    (hbatch : s.terrain.layer u = some batch) :
    ∃ new, (s.addDrawCommand env uid pass tileNode).2.terrain.layer u
        = some { tiles := batch.tiles ++ new } ∧
      new.length = (if uid = u ∧ pass.hidden = false then 1 else 0) ∧
      (s.addDrawCommand env uid pass tileNode).2.orphanedPassesDetected
        = (if pass.hidden = false ∧ s.terrain.layer uid = none
            then (s.orphanedPassesDetected + 1) % counterModulus
            else s.orphanedPassesDetected) ∧
      ∀ c ∈ new, c.modelViewMatrix = s.getModelViewMatrix env ∧
        c.drawPatch = env.newCommand.drawPatch := by
  cases hh : pass.hidden with
  | true =>
    rw [addDrawCommand_of_hidden env s uid pass tileNode hh]
    exact ⟨[], by simp [hbatch], by simp, by simp, by simp⟩
  | false =>
    cases hl : s.terrain.layer uid with
    | none =>
      rw [addDrawCommand_of_no_batch env s uid pass tileNode hh hl]
      have hne : uid ≠ u := by
        rintro rfl; rw [hl] at hbatch; cases hbatch
      exact ⟨[], by simp [hbatch], by simp [hne], by simp, by simp⟩
    | some b =>
      obtain ⟨cmd, hcall, _, _, hmv, hdp, _⟩ :=
        addDrawCommand_of_batch env s uid pass tileNode b hh hl
      rw [hcall]
      by_cases hu : uid = u
      · subst hu
        rw [hl] at hbatch
        injection hbatch with hbatch
        subst hbatch
        refine ⟨[cmd], by simp [TerrainRenderData.setLayer], by simp, by simp, ?_⟩
        intro c hc
        simp only [List.mem_singleton] at hc
        subst hc
        exact ⟨hmv, hdp⟩
      · have hu' : u ≠ uid := fun h => hu h.symm
        exact ⟨[], by simp [TerrainRenderData.setLayer, hu', hbatch], by simp [hu], by simp,
          by simp⟩

/-- The number of commands that the pass loop of the surface branch adds to the
batch of `u`: one for each pass with source uid `u` whose layer is valid and of
render type tile and that is not an invisible image layer. -/
theorem passLoop_layer (env : CullCollaborators) (tileNode : TileNode) (u : UID) :
    ∀ (passes : List RenderingPass) (s : TerrainCuller) (batch : LayerDrawable),
      s.terrain.layer u = some batch →
      ∃ new, (TerrainCuller.passLoop env tileNode passes s).terrain.layer u
          = some { tiles := batch.tiles ++ new } ∧
        new.length = passes.countP
          (fun pass => pass.isTilePass && !pass.hidden && decide (pass.sourceUID = u)) ∧
        (TerrainCuller.passLoop env tileNode passes s).terrain.tileLayers = s.terrain.tileLayers ∧
        (TerrainCuller.passLoop env tileNode passes s).modelViewStack = s.modelViewStack := by
  intro passes
  induction passes with
  | nil =>
    intro s batch hbatch
    exact ⟨[], by simp [TerrainCuller.passLoop, hbatch], by simp, rfl, rfl⟩
  | cons pass rest ih =>
    intro s batch hbatch
    cases ht : pass.isTilePass with
    | false =>
      obtain ⟨new, h1, h2, h3, h4⟩ := ih s batch hbatch
      refine ⟨new, by simp only [TerrainCuller.passLoop, ht]; exact h1, ?_,
        by simp only [TerrainCuller.passLoop, ht]; exact h3,
        by simp only [TerrainCuller.passLoop, ht]; exact h4⟩
      rw [h2, List.countP_cons]
      simp [ht]
    | true =>
      obtain ⟨new1, hl1, hn1, _, _⟩ :=
        addDrawCommand_layer env s pass.sourceUID pass tileNode u batch hbatch
      obtain ⟨hf1, _, hf3, _⟩ := addDrawCommand_frame env s pass.sourceUID pass tileNode
      obtain ⟨new, h1, h2, h3, h4⟩ := ih _ _ hl1
      refine ⟨new1 ++ new, ?_, ?_, ?_, ?_⟩
      · simp only [TerrainCuller.passLoop, ht, if_true]
        rw [h1]; simp [List.append_assoc]
      · rw [List.length_append, hn1, h2, List.countP_cons]
        by_cases hu : pass.sourceUID = u
        · cases hh : pass.hidden <;> simp [ht, hu, hh, Nat.add_comm]
        · simp [ht, hu]
      · simp only [TerrainCuller.passLoop, ht, if_true]
        rw [h3, hf1]
      · simp only [TerrainCuller.passLoop, ht, if_true]
        rw [h4, hf3]

/-- The number of commands that the loop over the global tile layers adds to the
batch of `u` when the tile has a default pass: none if the default pass is an
invisible image layer, else one for each registration of `u`. -/
theorem tileLayerLoop_layer (env : CullCollaborators) (tileNode : TileNode) (u : UID)
    (defaultPass : RenderingPass)
    (hdefault : tileNode.renderModel.getPass (-1) = some defaultPass) :
    ∀ (layers : List Layer) (s : TerrainCuller) (batch : LayerDrawable),
      s.terrain.layer u = some batch →
      ∃ s1 new, TerrainCuller.tileLayerLoop env tileNode layers s = some s1 ∧
        s1.terrain.layer u = some { tiles := batch.tiles ++ new } ∧
        new.length = (if defaultPass.hidden then 0
          else layers.countP (fun layer => decide (layer.uid = u))) ∧
        s1.modelViewStack = s.modelViewStack := by
  intro layers
  induction layers with
  | nil =>
    intro s batch hbatch
    exact ⟨s, [], rfl, by simp [hbatch], by simp, rfl⟩
  | cons layer rest ih =>
    intro s batch hbatch
    obtain ⟨new1, hl1, hn1, _, _⟩ :=
      addDrawCommand_layer env s layer.uid defaultPass tileNode u batch hbatch
    obtain ⟨_, _, hf3, _⟩ := addDrawCommand_frame env s layer.uid defaultPass tileNode
    obtain ⟨s1, new, h1, h2, h3, h4⟩ := ih _ _ hl1
    refine ⟨s1, new1 ++ new, ?_, ?_, ?_, ?_⟩
    · simp only [TerrainCuller.tileLayerLoop, hdefault]
      exact h1
    · rw [h2]; simp [List.append_assoc]
    · rw [List.length_append, hn1, h3, List.countP_cons]
      by_cases hu : layer.uid = u
      · cases hh : defaultPass.hidden <;> simp [hu, hh, Nat.add_comm]
      · cases hh : defaultPass.hidden <;> simp [hu, hh]
    · rw [h4, hf3]

theorem markPatch_frame (s : TerrainCuller) (uid : UID) (drawCallback : Option Nat) :
    (s.markPatch uid drawCallback).modelViewStack = s.modelViewStack ∧
    (s.markPatch uid drawCallback).orphanedPassesDetected = s.orphanedPassesDetected := by
  unfold TerrainCuller.markPatch
  split
  · split
    · exact ⟨rfl, rfl⟩
    · exact ⟨rfl, rfl⟩
  · exact ⟨rfl, rfl⟩

/-- The patch loop on a tile that has a default pass: it returns, the flag
`pushedMatrix` ends up set exactly when it was set before or some layer is
accepted, and the model-view stack has grown by exactly one matrix if the flag was
clear and some layer is accepted, and not at all otherwise. -/
theorem patchLoop_pushes_once (env : CullCollaborators) (tileNode : TileNode)
    (defaultPass : RenderingPass) :
    ∀ (layers : List PatchLayer) (pushedMatrix : Bool) (s : TerrainCuller),
      ∃ s1, TerrainCuller.patchLoop env tileNode (some defaultPass) layers pushedMatrix s
          = some (pushedMatrix || layers.any (fun layer => layer.accepts tileNode.key), s1) ∧
        s1.modelViewStack =
          (if !pushedMatrix && layers.any (fun layer => layer.accepts tileNode.key)
            then [env.computeLocalToWorldMatrix tileNode.surfaceNode (s.getModelViewMatrix env)]
            else []) ++ s.modelViewStack := by
  intro layers
  induction layers with
  | nil => intro pushedMatrix s; exact ⟨s, by simp [TerrainCuller.patchLoop], by simp⟩
  | cons layer rest ih =>
    intro pushedMatrix s
    cases hacc : layer.accepts tileNode.key with
    | false =>
      obtain ⟨s1, h1, h2⟩ := ih pushedMatrix s
      exact ⟨s1, by simp [TerrainCuller.patchLoop, hacc, h1], by simp [hacc, h2]⟩
    | true =>
      have key : ∀ s0 : TerrainCuller,
          ∃ s2, (∀ rest p, (match s0.addDrawCommand env layer.uid defaultPass tileNode with
              | (some _, s2) => TerrainCuller.patchLoop env tileNode (some defaultPass) rest p
                  (s2.markPatch layer.uid layer.drawCallback)
              | (none, s2) => TerrainCuller.patchLoop env tileNode (some defaultPass) rest p s2)
              = TerrainCuller.patchLoop env tileNode (some defaultPass) rest p s2) ∧
            s2.modelViewStack = s0.modelViewStack := by
        intro s0
        obtain ⟨_, _, hf3, _⟩ := addDrawCommand_frame env s0 layer.uid defaultPass tileNode
        rcases hres : s0.addDrawCommand env layer.uid defaultPass tileNode with ⟨cmd, s2⟩
        rw [hres] at hf3
        cases cmd with
        | none => exact ⟨s2, fun _ _ => rfl, hf3⟩
        | some c =>
          exact ⟨s2.markPatch layer.uid layer.drawCallback, fun _ _ => rfl,
            (markPatch_frame s2 layer.uid layer.drawCallback).1.trans hf3⟩
      cases pushedMatrix with
      | true =>
        obtain ⟨s2, hstep, hstack⟩ := key s
        obtain ⟨s1, h1, h2⟩ := ih true s2
        refine ⟨s1, ?_, ?_⟩
        · simp only [TerrainCuller.patchLoop, hacc, if_true, Bool.not_true, Bool.false_eq_true,
            if_false, hstep, h1, Bool.true_or]
        · rw [h2, hstack]; simp
      | false =>
        obtain ⟨s2, hstep, hstack⟩ := key (s.pushModelViewMatrix
          (env.computeLocalToWorldMatrix tileNode.surfaceNode (s.getModelViewMatrix env)))
        obtain ⟨s1, h1, h2⟩ := ih true s2
        refine ⟨s1, ?_, ?_⟩
        · simp only [TerrainCuller.patchLoop, hacc, if_true, Bool.not_false, hstep, h1,
            Bool.true_or, List.any_cons, Bool.false_or]
        · rw [h2, hstack]; simp [hacc, TerrainCuller.pushModelViewMatrix]

/-- On a tile that has a default pass, the tile branch of `apply` returns and
leaves the model-view stack as it found it: the one push of the patch loop, made
when some patch layer is accepted, is undone by the one pop after the loop. -/
theorem apply_tile_restores_stack (env : CullCollaborators) (s : TerrainCuller)
    (tileNode : TileNode) (defaultPass : RenderingPass)
    (hdefault : tileNode.renderModel.getPass (-1) = some defaultPass) :
    ∃ s1, s.apply env (Node.tile tileNode) = some s1 ∧
      s1.modelViewStack = s.modelViewStack := by
  unfold TerrainCuller.apply
  simp only [hdefault]
  cases hempty : s.terrain.patchLayers.isEmpty with
  | true => exact ⟨{ s with currentTileNode := some tileNode }, by simp, rfl⟩
  | false =>
    obtain ⟨s1, h1, h2⟩ := patchLoop_pushes_once env tileNode defaultPass
      s.terrain.patchLayers false { s with currentTileNode := some tileNode }
    simp only [Bool.not_false, if_true, h1, Bool.false_or, Bool.true_and] at h2 ⊢
    cases hany : s.terrain.patchLayers.any (fun layer => layer.accepts tileNode.key) with
    | true =>
      refine ⟨s1.popModelViewMatrix, by simp, ?_⟩
      simp [TerrainCuller.popModelViewMatrix, h2, hany]
    | false =>
      refine ⟨s1, by simp, ?_⟩
      simp [h2, hany]

/-- On a tile that has no default pass, the patch loop fails as soon as a layer
is accepted: the null `defaultPass` is dereferenced. -/
theorem patchLoop_null_default (env : CullCollaborators) (tileNode : TileNode) :
    ∀ (layers : List PatchLayer) (pushedMatrix : Bool) (s : TerrainCuller),
      layers.any (fun layer => layer.accepts tileNode.key) = true →
      TerrainCuller.patchLoop env tileNode none layers pushedMatrix s = none := by
  intro layers
  induction layers with
  | nil => intro _ _ h; simp at h
  | cons layer rest ih =>
    intro pushedMatrix s h
    cases hacc : layer.accepts tileNode.key with
    | true => simp [TerrainCuller.patchLoop, hacc]
    | false =>
      simp only [List.any_cons, hacc, Bool.false_or] at h
      simp only [TerrainCuller.patchLoop, hacc, Bool.false_eq_true, if_false]
      exact ih pushedMatrix s h

theorem passLoop_frame (env : CullCollaborators) (tileNode : TileNode) :
    ∀ (passes : List RenderingPass) (s : TerrainCuller),
      (TerrainCuller.passLoop env tileNode passes s).terrain.tileLayers = s.terrain.tileLayers ∧
      (TerrainCuller.passLoop env tileNode passes s).modelViewStack = s.modelViewStack := by
  intro passes
  induction passes with
  | nil => intro s; exact ⟨rfl, rfl⟩
  | cons pass rest ih =>
    intro s
    cases ht : pass.isTilePass with
    | false => simpa only [TerrainCuller.passLoop, ht] using ih s
    | true =>
      obtain ⟨hf1, _, hf3, _⟩ := addDrawCommand_frame env s pass.sourceUID pass tileNode
      obtain ⟨h1, h2⟩ := ih (s.addDrawCommand env pass.sourceUID pass tileNode).2
      simp only [TerrainCuller.passLoop, ht, if_true]
      exact ⟨h1.trans hf1, h2.trans hf3⟩

theorem tileLayerLoop_frame (env : CullCollaborators) (tileNode : TileNode)
    (defaultPass : RenderingPass)
    (hdefault : tileNode.renderModel.getPass (-1) = some defaultPass) :
    ∀ (layers : List Layer) (s : TerrainCuller),
      ∃ s1, TerrainCuller.tileLayerLoop env tileNode layers s = some s1 ∧
        s1.modelViewStack = s.modelViewStack := by
  intro layers
  induction layers with
  | nil => intro s; exact ⟨s, rfl, rfl⟩
  | cons layer rest ih =>
    intro s
    obtain ⟨_, _, hf3, _⟩ := addDrawCommand_frame env s layer.uid defaultPass tileNode
    obtain ⟨s1, h1, h2⟩ := ih (s.addDrawCommand env layer.uid defaultPass tileNode).2
    exact ⟨s1, by simp only [TerrainCuller.tileLayerLoop, hdefault]; exact h1, h2.trans hf3⟩

/-! ## Results on `TerrainCuller::apply` -/

/-- Counterexample to C7 as stated: layer `1` has a batch, the tile has a visible
pass of layer `1` of render type tile and a default pass, and layer `1` is also
registered as a global tile layer; visiting the surface node puts two commands in
the batch of layer `1`, not one. -/
theorem apply_surface_draws_twice :
    (cullerOf [] [{ uid := 1, renderType := RenderType.tile }] false 0).terrain.layer 1
      = some { tiles := [] } ∧
    (tileOf (renderModelOf [imagePass 1 true, emptyPass]) none).renderModel.passes
      = [imagePass 1 true, emptyPass] ∧
    (imagePass 1 true).isTilePass = true ∧ (imagePass 1 true).hidden = false ∧
    (((withCurrentTile (cullerOf [] [{ uid := 1, renderType := RenderType.tile }] false 0)
          (tileOf (renderModelOf [imagePass 1 true, emptyPass]) none)).apply plainCull
        (Node.surface (tileOf (renderModelOf [imagePass 1 true, emptyPass]) none).surfaceNode)).bind
      fun s1 => (s1.terrain.layer 1).map fun batch => batch.tiles.length) = some 2 := by
  refine ⟨by decide, rfl, by decide, by decide, by decide⟩

/-- Claim C7, amended: when a current tile is set and the tile has a default pass
if any global tile layer is registered, visiting a surface node returns, leaves the
model-view stack as it was, and for every layer uid that has a batch appends to
that batch, after its earlier commands, one command for each pass of the tile with
that source uid whose layer is valid, of render type tile and not an invisible
image layer, and, when the default pass is not an invisible image layer, one
command for each registration of the uid as a global tile layer. -/
theorem apply_surface_draws (env : CullCollaborators) (s : TerrainCuller)
    (surface : SurfaceNode) (tileNode : TileNode)
    (hcur : s.currentTileNode = some tileNode)
    (hdefault : s.terrain.tileLayers ≠ [] → ∃ defaultPass,
      tileNode.renderModel.getPass (-1) = some defaultPass) :
    ∃ s1, s.apply env (Node.surface surface) = some s1 ∧
      s1.modelViewStack = s.modelViewStack ∧
      ∀ u batch, s.terrain.layer u = some batch →
        ∃ new, s1.terrain.layer u = some { tiles := batch.tiles ++ new } ∧
          new.length = passDraws tileNode u + globalDraws s tileNode u := by
  -- the state after the push and the pass loop
  obtain ⟨hpf1, hpf2⟩ := passLoop_frame env tileNode tileNode.renderModel.passes
    (s.pushModelViewMatrix (env.computeLocalToWorldMatrix surface (s.getModelViewMatrix env)))
  -- the loop over the global tile layers returns
  have hloop : ∃ s3, TerrainCuller.tileLayerLoop env tileNode
      (TerrainCuller.passLoop env tileNode tileNode.renderModel.passes
        (s.pushModelViewMatrix
          (env.computeLocalToWorldMatrix surface (s.getModelViewMatrix env)))).terrain.tileLayers
      (TerrainCuller.passLoop env tileNode tileNode.renderModel.passes
        (s.pushModelViewMatrix
          (env.computeLocalToWorldMatrix surface (s.getModelViewMatrix env)))) = some s3 ∧
      s3.modelViewStack
        = env.computeLocalToWorldMatrix surface (s.getModelViewMatrix env) :: s.modelViewStack ∧
      ∀ u batch, s.terrain.layer u = some batch →
        ∃ new, s3.terrain.layer u = some { tiles := batch.tiles ++ new } ∧
          new.length = passDraws tileNode u + globalDraws s tileNode u := by
    rw [hpf1]
    have hpush : (s.pushModelViewMatrix
        (env.computeLocalToWorldMatrix surface (s.getModelViewMatrix env))).terrain = s.terrain := rfl
    rw [hpush]
    cases hdp : tileNode.renderModel.getPass (-1) with
    | none =>
      have hnil : s.terrain.tileLayers = [] := by
        by_contra hne
        obtain ⟨dp, hdp'⟩ := hdefault hne
        rw [hdp] at hdp'; cases hdp'
      rw [hnil]
      refine ⟨_, rfl, hpf2, ?_⟩
      intro u batch hbatch
      obtain ⟨new, h1, h2, _, _⟩ := passLoop_layer env tileNode u tileNode.renderModel.passes
        (s.pushModelViewMatrix (env.computeLocalToWorldMatrix surface (s.getModelViewMatrix env)))
        batch hbatch
      refine ⟨new, h1, ?_⟩
      rw [h2]
      simp [passDraws, globalDraws, hdp]
    | some dp =>
      obtain ⟨s3, hs3, hstack⟩ := tileLayerLoop_frame env tileNode dp hdp s.terrain.tileLayers
        (TerrainCuller.passLoop env tileNode tileNode.renderModel.passes
          (s.pushModelViewMatrix
            (env.computeLocalToWorldMatrix surface (s.getModelViewMatrix env))))
      refine ⟨s3, hs3, hstack.trans hpf2, ?_⟩
      intro u batch hbatch
      obtain ⟨new1, h1, h2, _, _⟩ := passLoop_layer env tileNode u tileNode.renderModel.passes
        (s.pushModelViewMatrix (env.computeLocalToWorldMatrix surface (s.getModelViewMatrix env)))
        batch hbatch
      obtain ⟨s3', new2, hs3', hl, hn, _⟩ := tileLayerLoop_layer env tileNode u dp hdp
        s.terrain.tileLayers _ _ h1
      rw [hs3] at hs3'
      injection hs3' with hs3'
      subst hs3'
      refine ⟨new1 ++ new2, by rw [hl]; simp [List.append_assoc], ?_⟩
      rw [List.length_append, h2, hn]
      simp [passDraws, globalDraws, hdp]
  obtain ⟨s3, hs3, hstack, hlayers⟩ := hloop
  have happly : s.apply env (Node.surface surface)
      = some { s3.popModelViewMatrix with
          terrain := { s3.popModelViewMatrix.terrain with
            drawState :=
              { bs := env.expandSphere s3.popModelViewMatrix.terrain.drawState.bs surface.bound
                box := env.expandBox s3.popModelViewMatrix.terrain.drawState.box
                  (env.expandSphere s3.popModelViewMatrix.terrain.drawState.bs surface.bound) } } } := by
    simp only [TerrainCuller.apply, hcur, hs3]
  refine ⟨_, happly, ?_, ?_⟩
  · simp [TerrainCuller.popModelViewMatrix, hstack]
  · intro u batch hbatch
    exact hlayers u batch hbatch

/-- Witness of the amended C7: a tile with a visible pass of layer `1` and a
default pass, with layer `1` registered as a global tile layer too. -/
theorem apply_surface_draws_witness :
    ∃ s1, (withCurrentTile (cullerOf [] [{ uid := 1, renderType := RenderType.tile }] false 0)
          (tileOf (renderModelOf [imagePass 1 true, emptyPass]) none)).apply plainCull
        (Node.surface (tileOf (renderModelOf [imagePass 1 true, emptyPass]) none).surfaceNode)
        = some s1 ∧
      ∃ new, s1.terrain.layer 1 = some { tiles := [] ++ new } ∧ new.length = 1 + 1 := by
  obtain ⟨s1, h1, _, h3⟩ := apply_surface_draws plainCull
    (withCurrentTile (cullerOf [] [{ uid := 1, renderType := RenderType.tile }] false 0)
      (tileOf (renderModelOf [imagePass 1 true, emptyPass]) none))
    (tileOf (renderModelOf [imagePass 1 true, emptyPass]) none).surfaceNode
    (tileOf (renderModelOf [imagePass 1 true, emptyPass]) none) rfl
    (fun _ => ⟨emptyPass, by decide⟩)
  exact ⟨s1, h1, h3 1 { tiles := [] } (by decide)⟩

/-- Failing input of C9: a tile whose render model has no default pass, visited
with one registered patch layer that has no accept callback; the visit does not
complete, the null default pass being dereferenced. -/
theorem apply_tile_null_default_pass :
    (tileOf (renderModelOf [imagePass 1 true]) none).renderModel.getPass (-1) = none ∧
    ({ uid := 1, acceptCallback := none, drawCallback := none } : PatchLayer).accepts
      (tileOf (renderModelOf [imagePass 1 true]) none).key = true ∧
    ((cullerOf [{ uid := 1, acceptCallback := none, drawCallback := none }] [] false 0).apply
      plainCull (Node.tile (tileOf (renderModelOf [imagePass 1 true]) none))).isNone = true := by
  refine ⟨by decide, by decide, by decide⟩

/-- Failing input of C8: a tile whose render model has no default pass, visited
with a patch layer that rejects the tile followed by one that accepts it; the
patch loop does not return, so the push made for the accepted layer is never
popped. -/
theorem apply_tile_push_without_pop :
    (TerrainCuller.patchLoop plainCull (tileOf (renderModelOf [imagePass 1 true]) none)
      ((tileOf (renderModelOf [imagePass 1 true]) none).renderModel.getPass (-1))
      [{ uid := 2, acceptCallback := some fun _ => false, drawCallback := none },
       { uid := 1, acceptCallback := some fun key => decide (key.lod = 1), drawCallback := none }]
      false (cullerOf [] [] false 0)).isNone = true ∧
    ((cullerOf
        [{ uid := 2, acceptCallback := some fun _ => false, drawCallback := none },
         { uid := 1, acceptCallback := some fun key => decide (key.lod = 1), drawCallback := none }]
        [] false 0).apply
      plainCull (Node.tile (tileOf (renderModelOf [imagePass 1 true]) none))).isNone = true := by
  refine ⟨by decide, by decide⟩

end OsgEarth
